import Mathlib

/-!
Shallow embedding of the virtual-drummer pattern-generation core
(`src/generator/PatternGenerator.ts`, `src/generator/humanize.ts` and the five
style templates) together with proofs of the specification claims.

Numbers are modelled as exact rationals (`ℚ`).  The process-wide random source
(`Math.random()`, values in `[0, 1)`) is modelled as an infinite stream
`rng : ℕ → ℚ` together with an explicit cursor `k : ℕ`; every call site that
draws from the source consumes the value at the current cursor and advances it,
in the same order as the JavaScript code (including `&&` short-circuiting).
-/

/-- The `DrumType` union of the nine percussion voices (`src/types`). -/
inductive DrumType : Type
  | kick | snare | hihatClosed | hihatOpen
  | tomHigh | tomMid | tomLow | crash | ride
  deriving DecidableEq, Repr

/-- One scheduled event, field for field the `DrumHit` interface. -/
structure DrumHit : Type where
  drum : DrumType
  time : ℚ
  velocity : ℚ
  duration : ℚ
  deriving DecidableEq, Repr

/-- The `Pattern` output record. -/
structure Pattern : Type where
  hits : List DrumHit
  lengthInBeats : ℚ
  timeSignature : String
  bpm : ℚ

/-- The `GeneratorSettings` input record.  `kitStyle` and `timeSignature` are
modelled as strings, as at the JavaScript runtime, so that the behaviour of the
`default` switch branches on unknown tags is expressible. -/
structure GeneratorSettings : Type where
  kitStyle : String
  timeSignature : String
  bpm : ℚ
  bars : ℕ
  complexity : ℚ
  dynamics : ℚ

/-- The `HumanizeOptions` record of `humanize.ts`. -/
structure HumanizeOptions : Type where
  timingVariation : ℚ
  velocityVariation : ℚ
  enabled : Bool

/-- Truncation toward zero, the rounding JavaScript's `%` operator uses. -/
def jsTrunc (x : ℚ) : ℤ := if 0 ≤ x then ⌊x⌋ else ⌈x⌉

/-- JavaScript `x % 1` (sign of the dividend, magnitude of a fractional part). -/
def jsMod1 (x : ℚ) : ℚ := x - jsTrunc x

/-- JavaScript `Math.round`: round half toward positive infinity. -/
def jsRound (x : ℚ) : ℤ := ⌊x + 0.5⌋

/-- Iteration count of a JavaScript loop `for (let i = 0; i < q; i++)` whose
bound `q` may be fractional (e.g. `beatsPerBar = 3.5`). -/
def qIter (q : ℚ) : ℕ := (⌈q⌉).toNat

/-- The random stream draws values in `[0, 1)`, as `Math.random()` does. -/
def validRng (rng : ℕ → ℚ) : Prop := ∀ n, 0 ≤ rng n ∧ rng n < 1

/-- A particular outcome of the random source: every draw returns `1/2`. -/
def constHalf : ℕ → ℚ := fun _ => 1/2

/-- A left fold accumulating a hit list and a random-source cursor; used for
the `for` loops of the templates. -/
def hitsFold {α : Type} (xs : List α) (body : α → List DrumHit × ℕ → List DrumHit × ℕ)
    (init : List DrumHit × ℕ) : List DrumHit × ℕ :=
  xs.foldl (fun st x => body x st) init

/-- `getBeatsPerBar`, duplicated verbatim in the orchestrator and in every
template file. -/
def getBeatsPerBar (timeSignature : String) : ℚ :=
  if timeSignature = "3/4" then 3
  else if timeSignature = "4/4" then 4
  else if timeSignature = "5/4" then 5
  else if timeSignature = "6/8" then 6
  else if timeSignature = "7/8" then 3.5
  else 4

/-! ## humanize.ts -/

/-- `humanizeHit`, applied to one hit with the two draws it consumes. -/
def humanizeHit (hit : DrumHit) (options : HumanizeOptions) (r₁ r₂ : ℚ) : DrumHit :=
  let maxTimingOffset := 0.03 * options.timingVariation
  let timingOffset := (r₁ - 0.5) * 2 * maxTimingOffset
  let maxVelocityOffset := 0.15 * options.velocityVariation
  let velocityOffset := (r₂ - 0.5) * 2 * maxVelocityOffset
  let newTime := max 0 (hit.time + timingOffset)
  let newVelocity := max 0.1 (min 1 (hit.velocity + velocityOffset))
  { hit with time := newTime, velocity := newVelocity }

/-- The `hits.map(hit => humanizeHit(hit, opts))` loop; each hit consumes two
draws from the shared source. -/
def humanizeHits : List DrumHit → HumanizeOptions → (ℕ → ℚ) → ℕ → List DrumHit × ℕ
  | [], _, _, k => ([], k)
  | hit :: rest, options, rng, k =>
    let hit' := humanizeHit hit options (rng k) (rng (k + 1))
    let rec' := humanizeHits rest options rng (k + 2)
    (hit' :: rec'.1, rec'.2)

/-- `humanizePattern`: identity when disabled, otherwise humanize every hit. -/
def humanizePattern (hits : List DrumHit) (options : HumanizeOptions)
    (rng : ℕ → ℚ) (k : ℕ) : List DrumHit × ℕ :=
  if options.enabled then humanizeHits hits options rng k else (hits, k)

/-- `swingPattern`'s per-hit transformation. -/
def swingHit (swingAmount : ℚ) (hit : DrumHit) : DrumHit :=
  let beatPosition := jsMod1 hit.time
  if |beatPosition - 0.5| < 0.1 then
    let swingOffset := 0.17 * swingAmount
    { hit with time := hit.time + swingOffset }
  else hit

/-- `swingPattern`: push near-offbeat hits toward the triplet position. -/
def swingPattern (hits : List DrumHit) (swingAmount : ℚ) : List DrumHit :=
  hits.map (swingHit swingAmount)

/-! ## templates/rock.ts -/

def addKickPattern (hits : List DrumHit) (barOffset beatsPerBar complexity velocity : ℚ) :
    List DrumHit :=
  let hits := hits ++ [{ drum := .kick, time := barOffset, velocity := velocity, duration := 0.25 }]
  if beatsPerBar ≥ 4 then
    let hits := hits ++
      [{ drum := .kick, time := barOffset + 2, velocity := velocity * 0.95, duration := 0.25 }]
    let hits := if complexity > 0.5 then hits ++
      [{ drum := .kick, time := barOffset + 1.5, velocity := velocity * 0.8, duration := 0.25 }]
      else hits
    if complexity > 0.7 then hits ++
      [{ drum := .kick, time := barOffset + 3.5, velocity := velocity * 0.75, duration := 0.25 }]
    else hits
  else hits

def addSnarePattern (hits : List DrumHit) (barOffset beatsPerBar complexity velocity : ℚ)
    (isFillBar : Bool) : List DrumHit :=
  if beatsPerBar ≥ 4 then
    let hits := hits ++
      [{ drum := .snare, time := barOffset + 1, velocity := velocity, duration := 0.25 }]
    let hits := if !isFillBar then hits ++
      [{ drum := .snare, time := barOffset + 3, velocity := velocity, duration := 0.25 }]
      else hits
    if complexity > 0.6 then hits ++
      [{ drum := .snare, time := barOffset + 0.5, velocity := velocity * 0.3, duration := 0.125 },
       { drum := .snare, time := barOffset + 2.5, velocity := velocity * 0.3, duration := 0.125 }]
    else hits
  else if beatsPerBar = 3 then
    hits ++ [{ drum := .snare, time := barOffset + 1, velocity := velocity, duration := 0.25 }]
  else hits

def addHihatPattern (hits : List DrumHit) (barOffset beatsPerBar complexity dynamics velocity : ℚ)
    (rng : ℕ → ℚ) (k : ℕ) : List DrumHit × ℕ :=
  let subdivision : ℚ := if complexity < 0.3 then 1 else if complexity < 0.6 then 0.5 else 0.25
  let steps := beatsPerBar / subdivision
  hitsFold (List.range (qIter steps)) (fun i st =>
    let time := barOffset + (i : ℚ) * subdivision
    let isOnBeat : Bool := decide (jsMod1 time = 0)
    let isOffBeat : Bool := decide (jsMod1 (time * 2) = 0) && !isOnBeat
    let emit := fun (isOpen : Bool) (k' : ℕ) =>
      (st.1 ++ [{ drum := if isOpen then DrumType.hihatOpen else DrumType.hihatClosed,
                  time := time,
                  velocity := velocity * (if isOnBeat then 1 else 0.7),
                  duration := if isOpen then (0.25 : ℚ) else 0.125 }], k')
    if dynamics > 0.7 ∧ isOffBeat = true then emit (decide (rng st.2 < 0.3)) (st.2 + 1)
    else emit false st.2)
    (hits, k)

def addRidePattern (hits : List DrumHit) (barOffset beatsPerBar velocity : ℚ) : List DrumHit :=
  hits ++ (List.range (qIter beatsPerBar)).map (fun beat =>
    { drum := .ride, time := barOffset + (beat : ℚ), velocity := velocity, duration := 0.5 })

def addRockFill (hits : List DrumHit) (barOffset beatsPerBar complexity velocity : ℚ) :
    List DrumHit :=
  let fillStart := barOffset + beatsPerBar - 1
  let fillNotes : List (DrumType × ℚ) :=
    [(.snare, 0), (.tomHigh, 0.25), (.tomMid, 0.5), (.tomLow, 0.75)]
  let hits := if complexity > 0.8 then hits ++
    [{ drum := .snare, time := fillStart - 1, velocity := velocity, duration := 0.25 },
     { drum := .snare, time := fillStart - 0.75, velocity := velocity * 0.9, duration := 0.25 },
     { drum := .tomHigh, time := fillStart - 0.5, velocity := velocity, duration := 0.25 },
     { drum := .tomHigh, time := fillStart - 0.25, velocity := velocity * 0.9, duration := 0.25 }]
    else hits
  hits ++ fillNotes.map (fun note =>
    { drum := note.1, time := fillStart + note.2,
      velocity := velocity * (1 - note.2 * 0.1), duration := 0.25 })

def generateRockPattern (bars : ℕ) (timeSignature : String) (complexity dynamics : ℚ)
    (rng : ℕ → ℚ) (k : ℕ) : List DrumHit × ℕ :=
  let beatsPerBar := getBeatsPerBar timeSignature
  let baseVelocity := 0.5 + dynamics * 0.4
  hitsFold (List.range bars) (fun bar st =>
    let barOffset := (bar : ℚ) * beatsPerBar
    let isFillBar : Bool := decide (complexity > 0.6) && decide ((bar + 1) % 4 = 0)
    let h1 := addKickPattern st.1 barOffset beatsPerBar complexity baseVelocity
    let h2 := addSnarePattern h1 barOffset beatsPerBar complexity baseVelocity isFillBar
    let s3 := if isFillBar then (h2, st.2)
      else addHihatPattern h2 barOffset beatsPerBar complexity dynamics baseVelocity rng st.2
    let h4 := if bar = 0 ∨ (bar > 0 ∧ complexity > 0.5 ∧ bar % 4 = 0) then s3.1 ++
      [{ drum := .crash, time := barOffset, velocity := baseVelocity * 0.9, duration := 0.5 }]
      else s3.1
    let h5 := if isFillBar then addRockFill h4 barOffset beatsPerBar complexity baseVelocity
      else h4
    let h6 := if dynamics < 0.3 ∧ complexity > 0.4 then
      addRidePattern h5 barOffset beatsPerBar (baseVelocity * 0.7) else h5
    (h6, s3.2)) ([], k)

/-! ## templates/jazz.ts -/

def addSwingRidePattern (hits : List DrumHit) (barOffset beatsPerBar complexity velocity : ℚ)
    (rng : ℕ → ℚ) (k : ℕ) : List DrumHit × ℕ :=
  hitsFold (List.range (qIter beatsPerBar)) (fun beat st =>
    let h1 := st.1 ++ [{ drum := .ride, time := barOffset + (beat : ℚ),
                         velocity := velocity, duration := 0.3 }]
    let h2 := if complexity > 0.2 ∨ beat % 2 = 0 then h1 ++
      [{ drum := .ride, time := barOffset + (beat : ℚ) + 0.67,
         velocity := velocity * 0.75, duration := 0.2 }]
      else h1
    if beat = 0 then
      (if rng st.2 < complexity * 0.3 then
        (h2 ++ [{ drum := .ride, time := barOffset + (beat : ℚ),
                  velocity := velocity * 1.1, duration := 0.3 }], st.2 + 1)
       else (h2, st.2 + 1))
    else (h2, st.2))
    (hits, k)

def addJazzHihatPattern (hits : List DrumHit) (barOffset beatsPerBar velocity : ℚ) :
    List DrumHit :=
  if beatsPerBar ≥ 4 then hits ++
    [{ drum := .hihatClosed, time := barOffset + 1, velocity := velocity * 0.6, duration := 0.1 },
     { drum := .hihatClosed, time := barOffset + 3, velocity := velocity * 0.6, duration := 0.1 }]
  else if beatsPerBar = 3 then hits ++
    [{ drum := .hihatClosed, time := barOffset + 1, velocity := velocity * 0.6, duration := 0.1 }]
  else hits

def addFeatheredKick (hits : List DrumHit) (barOffset beatsPerBar complexity dynamics velocity : ℚ)
    (rng : ℕ → ℚ) (k : ℕ) : List DrumHit × ℕ :=
  let featherVelocity := velocity * 0.3
  let hits := (List.range (qIter beatsPerBar)).foldl (fun hs beat =>
    if dynamics > 0.3 then hs ++
      [{ drum := .kick, time := barOffset + (beat : ℚ),
         velocity := featherVelocity, duration := 0.2 }]
    else hs) hits
  if complexity > 0.5 then
    let accentBeat : ℚ := if rng k < 0.5 then 0 else 2
    (if accentBeat < beatsPerBar then hits ++
      [{ drum := .kick, time := barOffset + accentBeat,
         velocity := velocity * 0.6, duration := 0.25 }]
     else hits, k + 1)
  else (hits, k)

def compingPositions : List (ℚ × ℚ) :=
  [(0.67, 0.2), (1.67, 0.3), (2, 0.15), (2.67, 0.25), (3.5, 0.2)]

def addJazzSnareComping (hits : List DrumHit) (barOffset beatsPerBar complexity velocity : ℚ)
    (rng : ℕ → ℚ) (k : ℕ) : List DrumHit × ℕ :=
  if complexity < 0.3 then (hits, k)
  else
    hitsFold compingPositions (fun pos st =>
      if pos.1 < beatsPerBar then
        (if rng st.2 < pos.2 * complexity then
          (st.1 ++ [{ drum := .snare, time := barOffset + pos.1,
                      velocity := velocity * (0.4 + rng (st.2 + 1) * 0.3),
                      duration := 0.15 }], st.2 + 2)
         else (st.1, st.2 + 1))
      else (st.1, st.2))
      (hits, k)

def addJazzFill (hits : List DrumHit) (barOffset beatsPerBar complexity velocity : ℚ) :
    List DrumHit :=
  let fillStart := barOffset + beatsPerBar - 1
  let hits := if complexity > 0.7 then hits ++
    [{ drum := .snare, time := fillStart, velocity := velocity * 0.7, duration := 0.15 },
     { drum := .snare, time := fillStart + 0.33, velocity := velocity * 0.8, duration := 0.15 },
     { drum := .snare, time := fillStart + 0.67, velocity := velocity * 0.9, duration := 0.15 }]
    else hits ++
    [{ drum := .snare, time := fillStart + 0.5, velocity := velocity * 0.8, duration := 0.2 }]
  hits ++ [{ drum := .crash, time := barOffset + beatsPerBar,
             velocity := velocity * 0.7, duration := 0.5 }]

def generateJazzPattern (bars : ℕ) (timeSignature : String) (complexity dynamics : ℚ)
    (rng : ℕ → ℚ) (k : ℕ) : List DrumHit × ℕ :=
  let beatsPerBar := getBeatsPerBar timeSignature
  let baseVelocity := 0.4 + dynamics * 0.4
  hitsFold (List.range bars) (fun bar st =>
    let barOffset := (bar : ℚ) * beatsPerBar
    let isFourBarPhrase : Bool := decide ((bar + 1) % 4 = 0)
    let s1 := addSwingRidePattern st.1 barOffset beatsPerBar complexity baseVelocity rng st.2
    let h2 := addJazzHihatPattern s1.1 barOffset beatsPerBar baseVelocity
    let s3 := addFeatheredKick h2 barOffset beatsPerBar complexity dynamics baseVelocity rng s1.2
    let s4 := addJazzSnareComping s3.1 barOffset beatsPerBar complexity baseVelocity rng s3.2
    let h5 := if isFourBarPhrase ∧ complexity > 0.5 then
      addJazzFill s4.1 barOffset beatsPerBar complexity baseVelocity else s4.1
    (h5, s4.2)) ([], k)

/-! ## templates/electronic.ts -/

def addFourOnFloorKick (hits : List DrumHit) (barOffset beatsPerBar complexity velocity : ℚ)
    (isBreakdown : Bool) : List DrumHit :=
  if isBreakdown then hits
  else
    let hits := hits ++ (List.range (qIter beatsPerBar)).map (fun beat =>
      { drum := DrumType.kick, time := barOffset + (beat : ℚ),
        velocity := velocity, duration := 0.2 })
    let hits := if complexity > 0.6 then hits ++
      [{ drum := .kick, time := barOffset + 0.75, velocity := velocity * 0.85, duration := 0.15 }]
      else hits
    if complexity > 0.8 then hits ++
      [{ drum := .kick, time := barOffset + 2.5, velocity := velocity * 0.8, duration := 0.15 },
       { drum := .kick, time := barOffset + 3.75, velocity := velocity * 0.85, duration := 0.15 }]
    else hits

def addElectronicSnare (hits : List DrumHit) (barOffset beatsPerBar complexity velocity : ℚ)
    (isBreakdown : Bool) : List DrumHit :=
  if isBreakdown then hits
  else if beatsPerBar ≥ 4 then
    let hits := hits ++
      [{ drum := .snare, time := barOffset + 1, velocity := velocity, duration := 0.2 },
       { drum := .snare, time := barOffset + 3, velocity := velocity, duration := 0.2 }]
    if complexity > 0.7 then hits ++
      [{ drum := .snare, time := barOffset + 1.5, velocity := velocity * 0.5, duration := 0.1 }]
    else hits
  else hits

def addElectronicHihats (hits : List DrumHit) (barOffset beatsPerBar complexity dynamics velocity : ℚ)
    (rng : ℕ → ℚ) (k : ℕ) : List DrumHit × ℕ :=
  let subdivision : ℚ := 0.25
  let steps := beatsPerBar / subdivision
  hitsFold (List.range (qIter steps)) (fun i st =>
    let time := barOffset + (i : ℚ) * subdivision
    let isOnBeat : Bool := decide (i % 4 = 0)
    let isOffBeat : Bool := decide (i % 2 = 1)
    let isEighthOffbeat : Bool := decide (i % 4 = 2)
    let emit := fun (isOpen : Bool) (k' : ℕ) =>
      if complexity < 0.5 ∧ isOnBeat = false ∧ isEighthOffbeat = false then (st.1, k')
      else if complexity < 0.3 ∧ isOnBeat = false then (st.1, k')
      else
        let hitVelocity := if isOnBeat then velocity * 0.9
          else if isEighthOffbeat then velocity * 0.8
          else if isOffBeat then velocity * 0.5
          else velocity * 0.7
        (st.1 ++ [{ drum := if isOpen then DrumType.hihatOpen else DrumType.hihatClosed,
                    time := time, velocity := hitVelocity,
                    duration := if isOpen then (0.2 : ℚ) else 0.1 }], k')
    if dynamics > 0.5 ∧ isEighthOffbeat = true then emit (decide (rng st.2 < 0.4)) (st.2 + 1)
    else emit false st.2)
    (hits, k)

def addElectronicPercussion (hits : List DrumHit) (barOffset beatsPerBar complexity velocity : ℚ)
    (rng : ℕ → ℚ) (k : ℕ) : List DrumHit × ℕ :=
  hitsFold ([0.5, 1.5, 2.5, 3.5] : List ℚ) (fun pos st =>
    if pos < beatsPerBar then
      (if rng st.2 < complexity * 0.4 then
        (st.1 ++ [{ drum := .ride, time := barOffset + pos,
                    velocity := velocity * 0.5, duration := 0.15 }], st.2 + 1)
       else (st.1, st.2 + 1))
    else (st.1, st.2))
    (hits, k)

def addElectronicFill (hits : List DrumHit) (barOffset beatsPerBar velocity : ℚ) :
    List DrumHit :=
  let fillStart := barOffset + beatsPerBar - 2
  let hits := hits ++ (List.range 16).map (fun i =>
    { drum := DrumType.snare, time := fillStart + (i : ℚ) * 0.125,
      velocity := velocity * (0.3 + ((i : ℚ) / 16) * 0.7), duration := 0.1 })
  hits ++ [{ drum := .crash, time := barOffset + beatsPerBar,
             velocity := velocity, duration := 0.5 }]

def generateElectronicPattern (bars : ℕ) (timeSignature : String) (complexity dynamics : ℚ)
    (rng : ℕ → ℚ) (k : ℕ) : List DrumHit × ℕ :=
  let beatsPerBar := getBeatsPerBar timeSignature
  let baseVelocity := 0.6 + dynamics * 0.35
  hitsFold (List.range bars) (fun bar st =>
    let barOffset := (bar : ℚ) * beatsPerBar
    let isBreakdownBar : Bool := decide (complexity > 0.6) && decide ((bar + 1) % 8 = 0)
    let h1 := addFourOnFloorKick st.1 barOffset beatsPerBar complexity baseVelocity isBreakdownBar
    let h2 := addElectronicSnare h1 barOffset beatsPerBar complexity baseVelocity isBreakdownBar
    let s3 := addElectronicHihats h2 barOffset beatsPerBar complexity dynamics baseVelocity rng st.2
    let s4 := if complexity > 0.5 then
      addElectronicPercussion s3.1 barOffset beatsPerBar complexity baseVelocity rng s3.2 else s3
    let h5 := if isBreakdownBar then addElectronicFill s4.1 barOffset beatsPerBar baseVelocity
      else s4.1
    (h5, s4.2)) ([], k)

/-! ## templates/latin.ts -/

def addLatinKick (hits : List DrumHit) (barOffset beatsPerBar : ℚ) (claveBar : ℕ)
    (complexity velocity : ℚ) : List DrumHit :=
  if beatsPerBar ≥ 4 then
    if claveBar = 0 then
      let hits := hits ++
        [{ drum := .kick, time := barOffset + 0, velocity := velocity, duration := 0.2 },
         { drum := .kick, time := barOffset + 2.5, velocity := velocity * 0.9, duration := 0.2 }]
      if complexity > 0.5 then hits ++
        [{ drum := .kick, time := barOffset + 3.5, velocity := velocity * 0.85, duration := 0.2 }]
      else hits
    else
      let hits := hits ++
        [{ drum := .kick, time := barOffset + 0.5, velocity := velocity * 0.9, duration := 0.2 },
         { drum := .kick, time := barOffset + 2, velocity := velocity, duration := 0.2 }]
      if complexity > 0.5 then hits ++
        [{ drum := .kick, time := barOffset + 3, velocity := velocity * 0.85, duration := 0.2 }]
      else hits
  else if beatsPerBar = 3 then hits ++
    [{ drum := .kick, time := barOffset, velocity := velocity, duration := 0.2 },
     { drum := .kick, time := barOffset + 1.5, velocity := velocity * 0.85, duration := 0.2 }]
  else hits

def addLatinSnare (hits : List DrumHit) (barOffset beatsPerBar : ℚ) (claveBar : ℕ)
    (complexity velocity : ℚ) : List DrumHit :=
  let crossVelocity := velocity * 0.7
  if beatsPerBar ≥ 4 then
    let hits := if claveBar = 0 then hits ++
      [{ drum := .snare, time := barOffset + 1, velocity := crossVelocity, duration := 0.15 },
       { drum := .snare, time := barOffset + 2, velocity := crossVelocity * 0.9, duration := 0.15 },
       { drum := .snare, time := barOffset + 3, velocity := crossVelocity, duration := 0.15 }]
      else hits ++
      [{ drum := .snare, time := barOffset + 1, velocity := crossVelocity, duration := 0.15 },
       { drum := .snare, time := barOffset + 3, velocity := crossVelocity, duration := 0.15 }]
    if complexity > 0.6 then hits ++
      [{ drum := .snare, time := barOffset + 0.5, velocity := velocity * 0.3, duration := 0.1 },
       { drum := .snare, time := barOffset + 2.5, velocity := velocity * 0.3, duration := 0.1 }]
    else hits
  else hits

def addLatinCymbal (hits : List DrumHit) (barOffset beatsPerBar _complexity dynamics velocity : ℚ) :
    List DrumHit :=
  let useRide := dynamics > 0.5
  let hits := hits ++ (List.range (qIter (beatsPerBar * 2))).map (fun i =>
    { drum := if useRide then DrumType.ride else DrumType.hihatClosed,
      time := barOffset + (i : ℚ) * 0.5,
      velocity := velocity * (if i % 2 = 0 then 0.8 else 0.6), duration := 0.2 })
  if dynamics > 0.6 ∧ ¬useRide then hits ++
    [{ drum := .hihatOpen, time := barOffset + 1.5, velocity := velocity * 0.7, duration := 0.25 },
     { drum := .hihatOpen, time := barOffset + 3.5, velocity := velocity * 0.7, duration := 0.25 }]
  else hits

def addCascaraPattern (hits : List DrumHit) (barOffset beatsPerBar : ℚ) (claveBar : ℕ)
    (_complexity velocity : ℚ) : List DrumHit :=
  let tomVelocity := velocity * 0.6
  if beatsPerBar ≥ 4 then
    let pat : List ℚ := if claveBar = 0 then [0, 0.5, 1, 1.5, 2.5, 3, 3.5]
      else [0, 0.5, 1.5, 2, 2.5, 3.5]
    hits ++ pat.map (fun pos =>
      { drum := if jsMod1 pos = 0 then DrumType.tomHigh else DrumType.tomMid,
        time := barOffset + pos, velocity := tomVelocity, duration := 0.15 })
  else hits

def addBellPattern (hits : List DrumHit) (barOffset beatsPerBar complexity velocity : ℚ)
    (rng : ℕ → ℚ) (k : ℕ) : List DrumHit × ℕ :=
  let bellVelocity := velocity * 0.5
  hitsFold ([0, 1.5, 2, 3.5] : List ℚ) (fun pos st =>
    if pos < beatsPerBar then
      (if rng st.2 < 0.5 + complexity * 0.3 then
        (st.1 ++ [{ drum := .crash, time := barOffset + pos,
                    velocity := bellVelocity, duration := 0.2 }], st.2 + 1)
       else (st.1, st.2 + 1))
    else (st.1, st.2))
    (hits, k)

def generateLatinPattern (bars : ℕ) (timeSignature : String) (complexity dynamics : ℚ)
    (rng : ℕ → ℚ) (k : ℕ) : List DrumHit × ℕ :=
  let beatsPerBar := getBeatsPerBar timeSignature
  let baseVelocity := 0.55 + dynamics * 0.35
  hitsFold (List.range bars) (fun bar st =>
    let barOffset := (bar : ℚ) * beatsPerBar
    let claveBar := bar % 2
    let h1 := addLatinKick st.1 barOffset beatsPerBar claveBar complexity baseVelocity
    let h2 := addLatinSnare h1 barOffset beatsPerBar claveBar complexity baseVelocity
    let h3 := addLatinCymbal h2 barOffset beatsPerBar complexity dynamics baseVelocity
    let h4 := if complexity > 0.4 then
      addCascaraPattern h3 barOffset beatsPerBar claveBar complexity baseVelocity else h3
    if complexity > 0.3 then addBellPattern h4 barOffset beatsPerBar complexity baseVelocity rng st.2
    else (h4, st.2)) ([], k)

/-! ## templates/lofi.ts -/

def addLofiRide (hits : List DrumHit) (barOffset beatsPerBar complexity velocity : ℚ)
    (rng : ℕ → ℚ) (k : ℕ) : List DrumHit × ℕ :=
  let rideVel := velocity * 0.6
  hitsFold (List.range (qIter beatsPerBar)) (fun beat st =>
    let h1 := st.1 ++ [{ drum := .ride, time := barOffset + (beat : ℚ),
                         velocity := rideVel * (0.85 + rng st.2 * 0.15), duration := 0.3 }]
    let k1 := st.2 + 1
    if complexity > 0.2 ∨ beat % 2 = 0 then
      (if rng k1 < 0.85 then
        (h1 ++ [{ drum := .ride, time := barOffset + (beat : ℚ) + 0.67,
                  velocity := rideVel * 0.65, duration := 0.2 }], k1 + 1)
       else (h1, k1 + 1))
    else (h1, k1))
    (hits, k)

def addLofiKick (hits : List DrumHit) (barOffset beatsPerBar complexity velocity : ℚ)
    (rng : ℕ → ℚ) (k : ℕ) : List DrumHit × ℕ :=
  let kickVel := velocity * 0.7
  if beatsPerBar ≥ 4 then
    let hits := hits ++
      [{ drum := .kick, time := barOffset, velocity := kickVel * 0.8, duration := 0.25 }]
    if complexity < 0.4 then
      (if rng k < 0.6 then
        (hits ++ [{ drum := .kick, time := barOffset + 2,
                    velocity := kickVel * 0.5, duration := 0.2 }], k + 1)
       else (hits, k + 1))
    else if complexity < 0.7 then
      (hits ++ [{ drum := .kick, time := barOffset + 1.67,
                  velocity := kickVel * 0.6, duration := 0.2 }], k)
    else
      let hits := hits ++ [{ drum := .kick, time := barOffset + 1.67,
                             velocity := kickVel * 0.55, duration := 0.2 }]
      (if rng k < 0.5 then
        (hits ++ [{ drum := .kick, time := barOffset + 3.33,
                    velocity := kickVel * 0.5, duration := 0.2 }], k + 1)
       else (hits, k + 1))
  else if beatsPerBar = 3 then
    (hits ++ [{ drum := .kick, time := barOffset, velocity := kickVel * 0.7, duration := 0.25 }], k)
  else (hits, k)

def ghostPositions : List (ℚ × ℚ × ℚ) :=
  [(0.67, 0.4, 0.25), (1.67, 0.5, 0.3), (2.33, 0.35, 0.22), (2.67, 0.45, 0.28), (3.67, 0.4, 0.25)]

def addLofiSnare (hits : List DrumHit) (barOffset beatsPerBar complexity velocity : ℚ)
    (rng : ℕ → ℚ) (k : ℕ) : List DrumHit × ℕ :=
  let snareVel := velocity * 0.75
  if beatsPerBar ≥ 4 then
    let hits := hits ++
      [{ drum := .snare, time := barOffset + 1, velocity := snareVel * 0.7, duration := 0.15 },
       { drum := .snare, time := barOffset + 3, velocity := snareVel * 0.75, duration := 0.15 }]
    hitsFold ghostPositions (fun ghost st =>
      if ghost.1 < beatsPerBar then
        (if rng st.2 < ghost.2.1 * (0.5 + complexity * 0.8) then
          (st.1 ++ [{ drum := .snare, time := barOffset + ghost.1,
                      velocity := snareVel * ghost.2.2, duration := 0.08 }], st.2 + 1)
         else (st.1, st.2 + 1))
      else (st.1, st.2))
      (hits, k)
  else if beatsPerBar = 3 then
    let hits := hits ++
      [{ drum := .snare, time := barOffset + 1, velocity := snareVel * 0.7, duration := 0.15 }]
    (if rng k < 0.4 then
      (hits ++ [{ drum := .snare, time := barOffset + 0.67,
                  velocity := snareVel * 0.25, duration := 0.08 }], k + 1)
     else (hits, k + 1))
  else (hits, k)

def addLofiHihat (hits : List DrumHit) (barOffset beatsPerBar complexity velocity : ℚ)
    (rng : ℕ → ℚ) (k : ℕ) : List DrumHit × ℕ :=
  let hihatVel := velocity * 0.5
  if beatsPerBar ≥ 4 then
    let hits := hits ++
      [{ drum := .hihatClosed, time := barOffset + 1,
         velocity := hihatVel * 0.5, duration := 0.08 },
       { drum := .hihatClosed, time := barOffset + 3,
         velocity := hihatVel * 0.5, duration := 0.08 }]
    if complexity > 0.5 then
      (if rng k < 0.25 then
        (hits ++ [{ drum := .hihatOpen,
                    time := barOffset + (if rng (k + 1) < 0.5 then (3.67 : ℚ) else 1.67),
                    velocity := hihatVel * 0.4, duration := 0.12 }], k + 2)
       else (hits, k + 1))
    else (hits, k)
  else (hits, k)

def generateLofiPattern (bars : ℕ) (timeSignature : String) (complexity dynamics : ℚ)
    (rng : ℕ → ℚ) (k : ℕ) : List DrumHit × ℕ :=
  let beatsPerBar := getBeatsPerBar timeSignature
  let baseVelocity := 0.45 + dynamics * 0.3
  hitsFold (List.range bars) (fun bar st =>
    let barOffset := (bar : ℚ) * beatsPerBar
    let s1 := addLofiRide st.1 barOffset beatsPerBar complexity baseVelocity rng st.2
    let s2 := addLofiKick s1.1 barOffset beatsPerBar complexity baseVelocity rng s1.2
    let s3 := addLofiSnare s2.1 barOffset beatsPerBar complexity baseVelocity rng s2.2
    addLofiHihat s3.1 barOffset beatsPerBar complexity baseVelocity rng s3.2) ([], k)

/-! ## PatternGenerator.ts -/

/-- The style switch with its `default: return generateRockPattern(...)` branch. -/
def generateBasePattern (s : GeneratorSettings) (rng : ℕ → ℚ) (k : ℕ) : List DrumHit × ℕ :=
  if s.kitStyle = "rock" then
    generateRockPattern s.bars s.timeSignature s.complexity s.dynamics rng k
  else if s.kitStyle = "jazz" then
    generateJazzPattern s.bars s.timeSignature s.complexity s.dynamics rng k
  else if s.kitStyle = "electronic" then
    generateElectronicPattern s.bars s.timeSignature s.complexity s.dynamics rng k
  else if s.kitStyle = "latin" then
    generateLatinPattern s.bars s.timeSignature s.complexity s.dynamics rng k
  else if s.kitStyle = "lofi" then
    generateLofiPattern s.bars s.timeSignature s.complexity s.dynamics rng k
  else
    generateRockPattern s.bars s.timeSignature s.complexity s.dynamics rng k

/-- The deduplication key.  The source builds the string
`` `${hit.drum}-${Math.round(hit.time * 1000)}` ``; on the nine drum names
(none of which ends in a dash-separated integer suffix of another) that string
determines and is determined by the pair below, so we key by the pair. -/
def hitKey (hit : DrumHit) : DrumType × ℤ := (hit.drum, jsRound (hit.time * 1000))

/-- Comparison relation of `hits.sort((a, b) => a.time - b.time)`; the JS sort
is stable, which a stable sort by this relation models. -/
def timeLE (a b : DrumHit) : Prop := a.time ≤ b.time

instance : DecidableRel timeLE := fun a b => (inferInstance : Decidable (a.time ≤ b.time))

instance : IsTotal DrumHit timeLE := ⟨fun a b => le_total a.time b.time⟩

instance : IsTrans DrumHit timeLE := ⟨fun _ _ _ h h' => le_trans h h'⟩

/-- A stable sort of the hits ascending by time. -/
def sortHits (hits : List DrumHit) : List DrumHit := hits.insertionSort timeLE

/-- `seen.set(key, hit)` on the insertion-ordered JS `Map`, guarded by
`!existing || hit.velocity > existing.velocity`: updating an existing key keeps
its position, a fresh key is appended. -/
def updateSeen (key : DrumType × ℤ) (hit : DrumHit) :
    List ((DrumType × ℤ) × DrumHit) → List ((DrumType × ℤ) × DrumHit)
  | [] => [(key, hit)]
  | entry :: rest =>
    if key = entry.1 then
      (if hit.velocity > entry.2.velocity then (entry.1, hit) else entry) :: rest
    else entry :: updateSeen key hit rest

/-- The `seen` map after the `for (const hit of hits)` loop of `deduplicateHits`. -/
def seenOf (hits : List DrumHit) : List ((DrumType × ℤ) × DrumHit) :=
  hits.foldl (fun seen hit => updateSeen (hitKey hit) hit seen) []

/-- `deduplicateHits`: keep one hit per key (the highest-velocity one), then
`Array.from(seen.values()).sort((a, b) => a.time - b.time)`. -/
def deduplicateHits (hits : List DrumHit) : List DrumHit :=
  sortHits ((seenOf hits).map Prod.snd)

/-- The assembly stage of `generatePattern`: sort ascending by time, then
deduplicate (lines 30–34 of `PatternGenerator.ts`). -/
def assembleHits (hits : List DrumHit) : List DrumHit :=
  deduplicateHits (sortHits hits)

/-- The swing dispatch of `generatePattern`: jazz swings by `0.6`, lofi by
`0.5`, every other style passes through. -/
def swingStage (s : GeneratorSettings) (hits : List DrumHit) : List DrumHit :=
  if s.kitStyle = "jazz" then swingPattern hits 0.6
  else if s.kitStyle = "lofi" then swingPattern hits 0.5
  else hits

/-- The hit list of `generatePattern` just before `deduplicateHits`:
template output, swing stage, humanization (with the fixed options
`{timingVariation: 0.4, velocityVariation: 0.3, enabled: true}`), sort. -/
def preDedupHits (s : GeneratorSettings) (rng : ℕ → ℚ) : List DrumHit :=
  let base := generateBasePattern s rng 0
  sortHits (humanizePattern (swingStage s base.1)
    { timingVariation := 0.4, velocityVariation := 0.3, enabled := true } rng base.2).1

/-- `generatePattern`. -/
def generatePattern (s : GeneratorSettings) (rng : ℕ → ℚ) : Pattern :=
  { hits := deduplicateHits (preDedupHits s rng)
    lengthInBeats := (s.bars : ℚ) * getBeatsPerBar s.timeSignature
    timeSignature := s.timeSignature
    bpm := s.bpm }

/-- The hit list the rock template produces at `bars = 1`, `timeSignature =
"4/4"`, `complexity = 0`, `dynamics = 0` (proved below in `rock_c8_base`). -/
def rockC8Hits : List DrumHit :=
  [{ drum := .kick, time := 0, velocity := 0.5, duration := 0.25 },
   { drum := .kick, time := 2, velocity := 0.475, duration := 0.25 },
   { drum := .snare, time := 1, velocity := 0.5, duration := 0.25 },
   { drum := .snare, time := 3, velocity := 0.5, duration := 0.25 },
   { drum := .hihatClosed, time := 0, velocity := 0.5, duration := 0.125 },
   { drum := .hihatClosed, time := 1, velocity := 0.5, duration := 0.125 },
   { drum := .hihatClosed, time := 2, velocity := 0.5, duration := 0.125 },
   { drum := .hihatClosed, time := 3, velocity := 0.5, duration := 0.125 },
   { drum := .crash, time := 0, velocity := 0.45, duration := 0.5 }]

/-! ## Generic lemmas about the folds and pipeline stages -/

theorem hitsFold_mem {α : Type} {body : α → List DrumHit × ℕ → List DrumHit × ℕ}
    {P : DrumHit → Prop} :
    ∀ (xs : List α), (∀ x ∈ xs, ∀ st, ∀ h ∈ (body x st).1, h ∈ st.1 ∨ P h) →
    ∀ init, ∀ h ∈ (hitsFold xs body init).1, h ∈ init.1 ∨ P h := by
  intro xs
  induction xs with
  | nil => intro _ init h hh; exact Or.inl hh
  | cons x xs ih =>
    intro hb init h hh
    have hstep : ∀ h' ∈ (hitsFold xs body (body x init)).1, h' ∈ (body x init).1 ∨ P h' :=
      ih (fun y hy => hb y (List.mem_cons_of_mem _ hy)) (body x init)
    have hh' : h ∈ (hitsFold xs body (body x init)).1 := hh
    rcases hstep h hh' with h1 | h2
    · exact hb x (List.mem_cons_self _ _) init h h1
    · exact Or.inr h2

theorem hitsFold_countP {α : Type} {body : α → List DrumHit × ℕ → List DrumHit × ℕ}
    {p : DrumHit → Bool} (g : α → ℕ) :
    ∀ (xs : List α), (∀ x ∈ xs, ∀ st, ((body x st).1).countP p = st.1.countP p + g x) →
    ∀ init, ((hitsFold xs body init).1).countP p = init.1.countP p + (xs.map g).sum := by
  intro xs
  induction xs with
  | nil => intro _ init; simp [hitsFold]
  | cons x xs ih =>
    intro hb init
    have hstep := ih (fun y hy => hb y (List.mem_cons_of_mem _ hy)) (body x init)
    have hx := hb x (List.mem_cons_self _ _) init
    have : (hitsFold (x :: xs) body init) = hitsFold xs body (body x init) := rfl
    rw [this, hstep, hx]
    simp; omega

theorem humanizeHits_mem {options : HumanizeOptions} {rng : ℕ → ℚ} :
    ∀ (l : List DrumHit) (k : ℕ), ∀ h' ∈ (humanizeHits l options rng k).1,
      ∃ h ∈ l, ∃ i j : ℕ, h' = humanizeHit h options (rng i) (rng j) := by
  intro l
  induction l with
  | nil => intro k h' hh'; simp [humanizeHits] at hh'
  | cons hit rest ih =>
    intro k h' hh'
    simp only [humanizeHits, List.mem_cons] at hh'
    rcases hh' with h1 | h2
    · exact ⟨hit, List.mem_cons_self _ _, k, k + 1, h1⟩
    · obtain ⟨h, hm, i, j, he⟩ := ih (k + 2) h' h2
      exact ⟨h, List.mem_cons_of_mem _ hm, i, j, he⟩

theorem humanizeHits_countP {options : HumanizeOptions} {rng : ℕ → ℚ}
    {p q : DrumHit → Bool} :
    ∀ (l : List DrumHit), (∀ h ∈ l, ∀ i j : ℕ, q (humanizeHit h options (rng i) (rng j)) = p h) →
    ∀ k, ((humanizeHits l options rng k).1).countP q = l.countP p := by
  intro l
  induction l with
  | nil => intro _ k; simp [humanizeHits]
  | cons hit rest ih =>
    intro hb k
    have hrest := ih (fun h hm i j => hb h (List.mem_cons_of_mem _ hm) i j) (k + 2)
    simp only [humanizeHits, List.countP_cons, hrest, hb hit (List.mem_cons_self _ _) k (k + 1)]

theorem humanizeHit_drum (h : DrumHit) (o : HumanizeOptions) (r₁ r₂ : ℚ) :
    (humanizeHit h o r₁ r₂).drum = h.drum := rfl

theorem humanizeHit_duration (h : DrumHit) (o : HumanizeOptions) (r₁ r₂ : ℚ) :
    (humanizeHit h o r₁ r₂).duration = h.duration := rfl

theorem humanizeHit_time (h : DrumHit) (o : HumanizeOptions) (r₁ r₂ : ℚ) :
    (humanizeHit h o r₁ r₂).time =
      max 0 (h.time + (r₁ - 0.5) * 2 * (0.03 * o.timingVariation)) := rfl

theorem humanizeHit_velocity (h : DrumHit) (o : HumanizeOptions) (r₁ r₂ : ℚ) :
    (humanizeHit h o r₁ r₂).velocity =
      max 0.1 (min 1 (h.velocity + (r₂ - 0.5) * 2 * (0.15 * o.velocityVariation))) := rfl

/-- A draw in `[0, 1)` scaled to `(r - 0.5) * 2 * m` stays within `[-m, m]`. -/
theorem draw_offset_abs {r m : ℚ} (h0 : 0 ≤ r) (h1 : r < 1) (hm : 0 ≤ m) :
    |(r - 0.5) * 2 * m| ≤ m := by
  rw [abs_mul, abs_mul, abs_of_nonneg hm, (by norm_num : |(2 : ℚ)| = 2)]
  have hr : |r - 0.5| ≤ 1/2 := abs_le.mpr ⟨by linarith, by linarith⟩
  nlinarith [abs_nonneg (r - 0.5)]

theorem max0_le {t δ m : ℚ} (hδ : |δ| ≤ m) (ht : 0 ≤ t) : max 0 (t + δ) ≤ t + m := by
  rcases abs_le.mp hδ with ⟨_, h2⟩
  exact max_le (by linarith) (by linarith)

theorem le_max0 {t δ m : ℚ} (hδ : |δ| ≤ m) : t - m ≤ max 0 (t + δ) := by
  rcases abs_le.mp hδ with ⟨h1, _⟩
  exact le_trans (by linarith) (le_max_right 0 (t + δ))

theorem clamp_id {x : ℚ} (h1 : 0.1 ≤ x) (h2 : x ≤ 1) : max 0.1 (min 1 x) = x := by
  rw [min_eq_right h2, max_eq_right h1]

theorem clamp_bounds (x : ℚ) : 0.1 ≤ max 0.1 (min 1 x) ∧ max 0.1 (min 1 x) ≤ 1 :=
  ⟨le_max_left _ _, max_le (by norm_num) (min_le_left _ _)⟩

theorem swingHit_drum (a : ℚ) (h : DrumHit) : (swingHit a h).drum = h.drum := by
  simp only [swingHit]; split <;> rfl

theorem swingHit_velocity (a : ℚ) (h : DrumHit) : (swingHit a h).velocity = h.velocity := by
  simp only [swingHit]; split <;> rfl

theorem swingHit_duration (a : ℚ) (h : DrumHit) : (swingHit a h).duration = h.duration := by
  simp only [swingHit]; split <;> rfl

theorem sortHits_perm (l : List DrumHit) : (sortHits l).Perm l := List.perm_insertionSort _ _

theorem sortHits_sorted (l : List DrumHit) : (sortHits l).Sorted timeLE :=
  List.sorted_insertionSort _ _

theorem sortHits_of_sorted {l : List DrumHit} (h : l.Sorted timeLE) : sortHits l = l :=
  h.insertionSort_eq

/-! ## Properties of the deduplication map -/

theorem updateSeen_mem {key : DrumType × ℤ} {hit : DrumHit} :
    ∀ (seen : List ((DrumType × ℤ) × DrumHit)), ∀ e ∈ updateSeen key hit seen,
      e ∈ seen ∨ e = (key, hit) := by
  intro seen
  induction seen with
  | nil => intro e he; simp [updateSeen] at he; exact Or.inr he
  | cons ent rest ih =>
    intro e he
    by_cases hk : key = ent.1
    · rw [updateSeen, if_pos hk] at he
      rcases List.mem_cons.mp he with h1 | h2
      · by_cases hv : hit.velocity > ent.2.velocity
        · rw [if_pos hv] at h1; right; rw [h1, hk]
        · rw [if_neg hv] at h1; left; exact List.mem_cons.mpr (Or.inl h1)
      · left; exact List.mem_cons.mpr (Or.inr h2)
    · rw [updateSeen, if_neg hk] at he
      rcases List.mem_cons.mp he with h1 | h2
      · left; exact List.mem_cons.mpr (Or.inl h1)
      · rcases ih e h2 with h3 | h4
        · left; exact List.mem_cons.mpr (Or.inr h3)
        · right; exact h4

theorem updateSeen_keys (key : DrumType × ℤ) (hit : DrumHit) :
    ∀ (seen : List ((DrumType × ℤ) × DrumHit)),
      (updateSeen key hit seen).map Prod.fst =
        if key ∈ seen.map Prod.fst then seen.map Prod.fst else seen.map Prod.fst ++ [key] := by
  intro seen
  induction seen with
  | nil => simp [updateSeen]
  | cons ent rest ih =>
    by_cases hk : key = ent.1
    · rw [updateSeen, if_pos hk]
      have hmem : key ∈ (ent :: rest).map Prod.fst := by simp [hk]
      rw [if_pos hmem]
      by_cases hv : hit.velocity > ent.2.velocity
      · simp [if_pos hv]
      · simp [if_neg hv]
    · rw [updateSeen, if_neg hk]
      by_cases hmem : key ∈ rest.map Prod.fst
      · have hmem2 : key ∈ (ent :: rest).map Prod.fst := by simp [hmem]
        rw [if_pos hmem2]
        simp only [List.map_cons]
        rw [ih, if_pos hmem]
      · have hmem2 : key ∉ (ent :: rest).map Prod.fst := by
          simp only [List.map_cons, List.mem_cons]
          push_neg
          exact ⟨hk, hmem⟩
        rw [if_neg hmem2]
        simp only [List.map_cons]
        rw [ih, if_neg hmem]
        simp

theorem updateSeen_countP (p : DrumHit → Bool) (key : DrumType × ℤ) (hit : DrumHit) :
    ∀ (seen : List ((DrumType × ℤ) × DrumHit)),
      ((updateSeen key hit seen).map Prod.snd).countP p ≤
        ((seen.map Prod.snd).countP p) + (if p hit then 1 else 0) := by
  intro seen
  induction seen with
  | nil => simp [updateSeen, List.countP_cons]
  | cons ent rest ih =>
    by_cases hk : key = ent.1
    · rw [updateSeen, if_pos hk]
      by_cases hv : hit.velocity > ent.2.velocity
      · rw [if_pos hv]
        simp only [List.map_cons, List.countP_cons]
        split <;> split <;> omega
      · rw [if_neg hv]
        simp only [List.map_cons, List.countP_cons]
        omega
    · rw [updateSeen, if_neg hk]
      simp only [List.map_cons, List.countP_cons]
      have := ih
      omega

theorem updateSeen_at_key (key : DrumType × ℤ) (hit : DrumHit) :
    ∀ (seen : List ((DrumType × ℤ) × DrumHit)), (seen.map Prod.fst).Nodup →
      ∀ e ∈ updateSeen key hit seen, e.1 = key →
        (e.2 = hit ∧ (key ∉ seen.map Prod.fst ∨
          ∃ old ∈ seen, old.1 = key ∧ old.2.velocity < hit.velocity)) ∨
        (e ∈ seen ∧ hit.velocity ≤ e.2.velocity) := by
  intro seen
  induction seen with
  | nil =>
    intro _ e he _
    simp [updateSeen] at he
    subst he
    exact Or.inl ⟨rfl, Or.inl (by simp)⟩
  | cons ent rest ih =>
    intro hnd e he hek
    have hndr : (rest.map Prod.fst).Nodup := (List.nodup_cons.mp hnd).2
    have hent : ent.1 ∉ rest.map Prod.fst := (List.nodup_cons.mp hnd).1
    by_cases hk : key = ent.1
    · rw [updateSeen, if_pos hk] at he
      rcases List.mem_cons.mp he with h1 | h2
      · by_cases hv : hit.velocity > ent.2.velocity
        · rw [if_pos hv] at h1
          left
          refine ⟨by rw [h1], Or.inr ⟨ent, List.mem_cons_self _ _, hk.symm, hv⟩⟩
        · rw [if_neg hv] at h1
          right
          exact ⟨List.mem_cons.mpr (Or.inl h1), by rw [h1]; exact le_of_not_lt hv⟩
      · exfalso
        have : e.1 ∈ rest.map Prod.fst := List.mem_map.mpr ⟨e, h2, rfl⟩
        rw [hek, hk] at this
        exact hent this
    · rw [updateSeen, if_neg hk] at he
      rcases List.mem_cons.mp he with h1 | h2
      · exfalso; rw [h1] at hek; exact hk hek.symm
      · rcases ih hndr e h2 hek with ⟨h3, h4⟩ | ⟨h5, h6⟩
        · left
          refine ⟨h3, ?_⟩
          rcases h4 with h7 | ⟨old, hom, ho1, ho2⟩
          · left
            simp only [List.map_cons, List.mem_cons]
            push_neg
            exact ⟨hk, h7⟩
          · exact Or.inr ⟨old, List.mem_cons_of_mem _ hom, ho1, ho2⟩
        · exact Or.inr ⟨List.mem_cons_of_mem _ h5, h6⟩

theorem updateSeen_append {key : DrumType × ℤ} {hit : DrumHit} :
    ∀ (seen : List ((DrumType × ℤ) × DrumHit)), key ∉ seen.map Prod.fst →
      updateSeen key hit seen = seen ++ [(key, hit)] := by
  intro seen
  induction seen with
  | nil => intro _; simp [updateSeen]
  | cons ent rest ih =>
    intro hnm
    simp only [List.map_cons, List.mem_cons] at hnm
    push_neg at hnm
    rw [updateSeen, if_neg hnm.1, ih hnm.2]
    simp

/-- Invariant of the `deduplicateHits` scan: keys are the keys of the snd
components, keys are distinct, every stored hit comes from the processed
hits, every processed key is present, and every stored hit dominates (in
velocity) all processed hits with its key. -/
def SeenInv (processed : List DrumHit) (seen : List ((DrumType × ℤ) × DrumHit)) : Prop :=
  (∀ e ∈ seen, hitKey e.2 = e.1) ∧
  ((seen.map Prod.fst).Nodup) ∧
  (∀ e ∈ seen, e.2 ∈ processed) ∧
  (∀ h ∈ processed, hitKey h ∈ seen.map Prod.fst) ∧
  (∀ e ∈ seen, ∀ h ∈ processed, hitKey h = e.1 → h.velocity ≤ e.2.velocity)

theorem seenInv_step {processed : List DrumHit} {seen : List ((DrumType × ℤ) × DrumHit)}
    (hit : DrumHit) (hinv : SeenInv processed seen) :
    SeenInv (processed ++ [hit]) (updateSeen (hitKey hit) hit seen) := by
  obtain ⟨i1, i2, i3, i4, i5⟩ := hinv
  refine ⟨?_, ?_, ?_, ?_, ?_⟩
  · intro e he
    rcases updateSeen_mem seen e he with h1 | h2
    · exact i1 e h1
    · rw [h2]
  · rw [updateSeen_keys]
    split
    · exact i2
    · rw [List.nodup_append]
      refine ⟨i2, List.nodup_singleton _, ?_⟩
      intro a ha hb
      simp only [List.mem_singleton] at hb
      subst hb
      exact (by assumption : hitKey hit ∉ seen.map Prod.fst) ha
  · intro e he
    rcases updateSeen_mem seen e he with h1 | h2
    · exact List.mem_append_left _ (i3 e h1)
    · rw [h2]; exact List.mem_append_right _ (List.mem_singleton_self _)
  · intro h hh
    have hsub : seen.map Prod.fst ⊆ (updateSeen (hitKey hit) hit seen).map Prod.fst := by
      rw [updateSeen_keys]
      split
      · exact fun a ha => ha
      · exact fun a ha => List.mem_append_left _ ha
    rcases List.mem_append.mp hh with h1 | h2
    · exact hsub (i4 h h1)
    · simp only [List.mem_singleton] at h2
      subst h2
      rw [updateSeen_keys]
      split
      · assumption
      · exact List.mem_append_right _ (List.mem_singleton_self _)
  · intro e he h hh hkeq
    by_cases hke : e.1 = hitKey hit
    · rcases updateSeen_at_key (hitKey hit) hit seen i2 e he hke with ⟨h1, h2⟩ | ⟨h3, h4⟩
      · rw [h1]
        rcases List.mem_append.mp hh with hp | hs
        · rcases h2 with hfresh | ⟨old, hom, ho1, ho2⟩
          · exfalso
            have := i4 h hp
            rw [hkeq, hke] at this
            exact hfresh this
          · have := i5 old hom h hp (by rw [hkeq, hke, ho1])
            linarith
        · simp only [List.mem_singleton] at hs
          subst hs
          exact le_refl _
      · rcases List.mem_append.mp hh with hp | hs
        · exact i5 e h3 h hp hkeq
        · simp only [List.mem_singleton] at hs
          subst hs
          exact h4
    · have he' : e ∈ seen := by
        rcases updateSeen_mem seen e he with h1 | h2
        · exact h1
        · exfalso; rw [h2] at hke; exact hke rfl
      rcases List.mem_append.mp hh with hp | hs
      · exact i5 e he' h hp hkeq
      · simp only [List.mem_singleton] at hs
        subst hs
        exfalso
        exact hke hkeq.symm

theorem seenInv_fold :
    ∀ (l processed : List DrumHit) (seen : List ((DrumType × ℤ) × DrumHit)),
      SeenInv processed seen →
      SeenInv (processed ++ l) (l.foldl (fun s h => updateSeen (hitKey h) h s) seen) := by
  intro l
  induction l with
  | nil => intro processed seen h; simpa using h
  | cons hit rest ih =>
    intro processed seen h
    have hstep := seenInv_step hit h
    have := ih (processed ++ [hit]) _ hstep
    simpa using this

theorem seenInv_seenOf (l : List DrumHit) : SeenInv l (seenOf l) := by
  have hbase : SeenInv [] [] := by
    refine ⟨?_, ?_, ?_, ?_, ?_⟩ <;> simp
  have := seenInv_fold l [] [] hbase
  simpa [seenOf] using this

theorem mem_of_mem_dedup {l : List DrumHit} {h : DrumHit}
    (hm : h ∈ deduplicateHits l) : h ∈ l := by
  obtain ⟨_, _, i3, _, _⟩ := seenInv_seenOf l
  have hv : h ∈ (seenOf l).map Prod.snd := (sortHits_perm _).mem_iff.mp hm
  obtain ⟨e, he, heq⟩ := List.mem_map.mp hv
  rw [← heq]
  exact i3 e he

theorem dedup_countP_le (p : DrumHit → Bool) (l : List DrumHit) :
    (deduplicateHits l).countP p ≤ l.countP p := by
  have hperm := (sortHits_perm ((seenOf l).map Prod.snd)).countP_eq p
  rw [deduplicateHits, hperm]
  suffices hgen : ∀ (m : List DrumHit) (seen : List ((DrumType × ℤ) × DrumHit)),
      ((m.foldl (fun s h => updateSeen (hitKey h) h s) seen).map Prod.snd).countP p ≤
        ((seen.map Prod.snd).countP p) + m.countP p by
    have := hgen l []
    simpa [seenOf] using this
  intro m
  induction m with
  | nil => intro seen; simp
  | cons hit rest ih =>
    intro seen
    have h1 := ih (updateSeen (hitKey hit) hit seen)
    have h2 := updateSeen_countP p (hitKey hit) hit seen
    simp only [List.foldl_cons, List.countP_cons] at h1 ⊢
    split at h2 <;> split <;> omega

theorem dedup_pairwise_keys (l : List DrumHit) :
    (deduplicateHits l).Pairwise (fun a b => hitKey a ≠ hitKey b) := by
  obtain ⟨i1, i2, _, _, _⟩ := seenInv_seenOf l
  have hmapeq : (seenOf l).map Prod.fst = ((seenOf l).map Prod.snd).map hitKey := by
    rw [List.map_map]
    exact (List.map_congr_left (fun e he => (i1 e he).symm))
  rw [hmapeq] at i2
  have hpair : ((seenOf l).map Prod.snd).Pairwise (fun a b => hitKey a ≠ hitKey b) :=
    List.pairwise_map.mp i2
  have hsym : Symmetric (fun a b : DrumHit => hitKey a ≠ hitKey b) := fun _ _ h => Ne.symm h
  exact ((sortHits_perm _).pairwise_iff @hsym).mpr hpair

theorem dedup_maxvel {l : List DrumHit} :
    ∀ h ∈ deduplicateHits l, ∀ h' ∈ l, hitKey h' = hitKey h → h'.velocity ≤ h.velocity := by
  obtain ⟨i1, _, _, _, i5⟩ := seenInv_seenOf l
  intro h hm h' hm' hkeq
  have hv : h ∈ (seenOf l).map Prod.snd := (sortHits_perm _).mem_iff.mp hm
  obtain ⟨e, he, heq⟩ := List.mem_map.mp hv
  have hke : hitKey h = e.1 := by rw [← heq]; exact i1 e he
  have := i5 e he h' hm' (by rw [hkeq, hke])
  rw [← heq]
  exact this

theorem dedup_keycover {l : List DrumHit} :
    ∀ h' ∈ l, ∃ h ∈ deduplicateHits l, hitKey h = hitKey h' := by
  obtain ⟨i1, _, _, i4, _⟩ := seenInv_seenOf l
  intro h' hm'
  have hk := i4 h' hm'
  obtain ⟨e, he, heq⟩ := List.mem_map.mp hk
  refine ⟨e.2, ?_, ?_⟩
  · exact (sortHits_perm _).mem_iff.mpr (List.mem_map.mpr ⟨e, he, rfl⟩)
  · rw [i1 e he, heq]

theorem dedup_sorted (l : List DrumHit) : (deduplicateHits l).Sorted timeLE :=
  sortHits_sorted _

/-- If a predicate singles out exactly one hit and is closed under sharing a
deduplication key inside `l`, deduplication keeps exactly one hit satisfying
it. -/
theorem dedup_countP_key_closed {l : List DrumHit} {p : DrumHit → Bool}
    (hc : l.countP p = 1)
    (hcl : ∀ h ∈ l, ∀ h' ∈ l, p h = true → hitKey h' = hitKey h → p h' = true) :
    (deduplicateHits l).countP p = 1 := by
  have hle : (deduplicateHits l).countP p ≤ 1 := hc ▸ dedup_countP_le p l
  have hpos : 0 < l.countP p := by omega
  obtain ⟨h₀, hm₀, hp₀⟩ := List.countP_pos_iff.mp hpos
  obtain ⟨h, hmd, hkeq⟩ := dedup_keycover h₀ hm₀
  have hml : h ∈ l := mem_of_mem_dedup hmd
  have hph : p h = true := hcl h₀ hm₀ h hml hp₀ hkeq
  have hge : 0 < (deduplicateHits l).countP p := List.countP_pos_iff.mpr ⟨h, hmd, hph⟩
  omega

theorem seenOf_of_pairwise :
    ∀ (l : List DrumHit) (seen : List ((DrumType × ℤ) × DrumHit)),
      (∀ h ∈ l, hitKey h ∉ seen.map Prod.fst) →
      l.Pairwise (fun a b => hitKey a ≠ hitKey b) →
      (l.foldl (fun s h => updateSeen (hitKey h) h s) seen).map Prod.snd =
        seen.map Prod.snd ++ l := by
  intro l
  induction l with
  | nil => intro seen _ _; simp
  | cons hit rest ih =>
    intro seen hfresh hpw
    have hstep : updateSeen (hitKey hit) hit seen = seen ++ [(hitKey hit, hit)] :=
      updateSeen_append seen (hfresh hit (List.mem_cons_self _ _))
    have hfresh' : ∀ h ∈ rest, hitKey h ∉ (seen ++ [(hitKey hit, hit)]).map Prod.fst := by
      intro h hm
      simp only [List.map_append, List.mem_append, List.map_cons, List.map_nil,
        List.mem_singleton]
      push_neg
      refine ⟨hfresh h (List.mem_cons_of_mem _ hm), ?_⟩
      have := (List.pairwise_cons.mp hpw).1 h hm
      exact fun hcontra => this hcontra.symm
    have := ih (seen ++ [(hitKey hit, hit)]) hfresh' (List.pairwise_cons.mp hpw).2
    simp only [List.foldl_cons, hstep, this, List.map_append]
    simp

theorem dedup_of_pairwise {l : List DrumHit}
    (hl : l.Pairwise (fun a b => hitKey a ≠ hitKey b)) : deduplicateHits l = sortHits l := by
  rw [deduplicateHits, seenOf]
  rw [seenOf_of_pairwise l [] (by simp) hl]
  simp

/-- Deduplication after sorting permutes back to the input whenever keys are
already pairwise distinct. -/
theorem dedup_sort_perm {l : List DrumHit}
    (hl : l.Pairwise (fun a b => hitKey a ≠ hitKey b)) :
    (deduplicateHits (sortHits l)).Perm l := by
  have hsym : Symmetric (fun a b : DrumHit => hitKey a ≠ hitKey b) := fun _ _ h => Ne.symm h
  have hl' : (sortHits l).Pairwise (fun a b => hitKey a ≠ hitKey b) :=
    ((sortHits_perm l).pairwise_iff @hsym).mpr hl
  rw [dedup_of_pairwise hl']
  exact (sortHits_perm _).trans (sortHits_perm l)

/-! ## Per-template structure lemmas -/

theorem mem_append_spec {hits new : List DrumHit} {P : DrumHit → Prop} (h : DrumHit)
    (hm : h ∈ hits ++ new) (hnew : ∀ x ∈ new, P x) : h ∈ hits ∨ P h := by
  rcases List.mem_append.mp hm with h1 | h2
  · exact Or.inl h1
  · exact Or.inr (hnew h h2)

theorem mem_append_single {hits : List DrumHit} {x h : DrumHit} (hm : h ∈ hits ++ [x]) :
    h ∈ hits ∨ h = x := by
  rcases List.mem_append.mp hm with h1 | h2
  · exact Or.inl h1
  · exact Or.inr (List.mem_singleton.mp h2)

theorem addKickPattern_mem (hits : List DrumHit) (b bpb c v : ℚ) :
    ∀ h ∈ addKickPattern hits b bpb c v, h ∈ hits ∨ (h.drum = .kick ∧ 0 < h.duration) := by
  intro h hm
  simp only [addKickPattern] at hm
  split_ifs at hm <;>
    (try simp only [List.append_assoc, List.singleton_append, List.cons_append] at hm) <;>
    first
      | exact Or.inl hm
      | (refine mem_append_spec (P := fun x => x.drum = DrumType.kick ∧ 0 < x.duration) h hm ?_
         intro x hx; fin_cases hx <;> exact ⟨rfl, by norm_num⟩)

theorem addSnarePattern_mem (hits : List DrumHit) (b bpb c v : ℚ) (fb : Bool) :
    ∀ h ∈ addSnarePattern hits b bpb c v fb, h ∈ hits ∨ (h.drum = .snare ∧ 0 < h.duration) := by
  intro h hm
  simp only [addSnarePattern] at hm
  split_ifs at hm <;>
    (try simp only [List.append_assoc, List.singleton_append, List.cons_append] at hm) <;>
    first
      | exact Or.inl hm
      | (refine mem_append_spec (P := fun x => x.drum = DrumType.snare ∧ 0 < x.duration) h hm ?_
         intro x hx; fin_cases hx <;> exact ⟨rfl, by norm_num⟩)

theorem addHihatPattern_mem (hits : List DrumHit) (b bpb c d v : ℚ) (rng : ℕ → ℚ) (k : ℕ) :
    ∀ h ∈ (addHihatPattern hits b bpb c d v rng k).1,
      h ∈ hits ∨ ((h.drum = .hihatOpen ∨ h.drum = .hihatClosed) ∧ 0 < h.duration) := by
  intro h hm
  simp only [addHihatPattern] at hm
  refine hitsFold_mem
    (P := fun x => (x.drum = DrumType.hihatOpen ∨ x.drum = DrumType.hihatClosed) ∧
      0 < x.duration) _ ?_ (hits, k) h hm
  intro i _ st h' hm'
  try dsimp only at hm'
  try simp only [Bool.false_eq_true, if_false] at hm'
  split_ifs at hm' <;>
    (try dsimp only at hm') <;>
    (refine mem_append_spec
        (P := fun x => (x.drum = DrumType.hihatOpen ∨ x.drum = DrumType.hihatClosed) ∧
          0 < x.duration) h' hm' ?_
     intro x hx
     fin_cases hx
     first
       | exact ⟨Or.inl rfl, by norm_num⟩
       | exact ⟨Or.inr rfl, by norm_num⟩)

theorem addRidePattern_mem (hits : List DrumHit) (b bpb v : ℚ) :
    ∀ h ∈ addRidePattern hits b bpb v, h ∈ hits ∨ (h.drum = .ride ∧ 0 < h.duration) := by
  intro h hm
  simp only [addRidePattern] at hm
  refine mem_append_spec (P := fun x => x.drum = DrumType.ride ∧ 0 < x.duration) h hm ?_
  intro x hx
  simp only [List.mem_map] at hx
  obtain ⟨beat, _, rfl⟩ := hx
  exact ⟨rfl, by norm_num⟩

theorem addRockFill_mem (hits : List DrumHit) (b bpb c v : ℚ) :
    ∀ h ∈ addRockFill hits b bpb c v, h ∈ hits ∨ 0 < h.duration := by
  intro h hm
  simp only [addRockFill, List.map_cons, List.map_nil] at hm
  split_ifs at hm <;>
    (try simp only [List.append_assoc, List.singleton_append, List.cons_append] at hm) <;>
    (refine mem_append_spec (P := fun x => 0 < x.duration) h hm ?_
     intro x hx; fin_cases hx <;> norm_num)

theorem generateRockPattern_duration (bars : ℕ) (ts : String) (c d : ℚ) (rng : ℕ → ℚ) (k : ℕ) :
    ∀ h ∈ (generateRockPattern bars ts c d rng k).1, 0 < h.duration := by
  intro h hm
  simp only [generateRockPattern] at hm
  have hres := hitsFold_mem (P := fun x => 0 < x.duration) _ ?_ ([], k) h hm
  · rcases hres with hres | hres
    · simp at hres
    · exact hres
  intro bar _ st h' hm'
  dsimp only at hm'
  split at hm' <;>
    (try (have htmp := addRidePattern_mem _ _ _ _ h' hm'; clear hm'
          rcases htmp with hm' | hsp)) <;>
    (try exact Or.inr hsp.2) <;>
    split at hm' <;>
    (try (have htmp := addRockFill_mem _ _ _ _ _ h' hm'; clear hm'
          rcases htmp with hm' | hsp)) <;>
    (try exact Or.inr hsp) <;>
    split at hm' <;>
    (try (have htmp := mem_append_single hm'; clear hm'
          rcases htmp with hm' | heq)) <;>
    (try (subst heq; exact Or.inr (by norm_num))) <;>
    (try simp only [apply_ite Prod.fst] at hm') <;>
    (try split at hm') <;>
    (try dsimp only at hm') <;>
    (try (have htmp := addHihatPattern_mem _ _ _ _ _ _ _ _ h' hm'; clear hm'
          rcases htmp with hm' | hsp)) <;>
    (try exact Or.inr hsp.2) <;>
    (have htmp := addSnarePattern_mem _ _ _ _ _ _ h' hm'; clear hm'
     rcases htmp with hm' | hsp) <;>
    (try exact Or.inr hsp.2) <;>
    (have htmp := addKickPattern_mem _ _ _ _ _ h' hm'; clear hm'
     rcases htmp with hm' | hsp) <;>
    first
      | exact Or.inl hm'
      | exact Or.inr hsp.2

theorem foldl_append_mem {α : Type} {P : DrumHit → Prop} (f : List DrumHit → α → List DrumHit)
    (hf : ∀ acc x, ∀ h ∈ f acc x, h ∈ acc ∨ P h) :
    ∀ (xs : List α) (init : List DrumHit), ∀ h ∈ xs.foldl f init, h ∈ init ∨ P h := by
  intro xs
  induction xs with
  | nil => intro init h hh; exact Or.inl hh
  | cons x xs ih =>
    intro init h hh
    rcases ih (f init x) h hh with h1 | h2
    · exact hf init x h h1
    · exact Or.inr h2

theorem qIter_lt {beat : ℕ} {q : ℚ} (h : beat < qIter q) : (beat : ℚ) < q := by
  unfold qIter at h
  have h1 : (beat : ℤ) < ⌈q⌉ := Int.lt_toNat.mp h
  have h2 : (beat : ℚ) + 1 ≤ (⌈q⌉ : ℚ) := by exact_mod_cast h1
  have h3 := Int.ceil_lt_add_one q
  linarith

theorem addSwingRidePattern_mem (hits : List DrumHit) (b bpb c v : ℚ) (rng : ℕ → ℚ) (k : ℕ) :
    ∀ h ∈ (addSwingRidePattern hits b bpb c v rng k).1,
      h ∈ hits ∨ (h.drum = .ride ∧ 0 < h.duration) := by
  intro h hm
  simp only [addSwingRidePattern] at hm
  refine hitsFold_mem (P := fun x => x.drum = DrumType.ride ∧ 0 < x.duration) _ ?_ (hits, k) h hm
  intro i _ st h' hm'
  try dsimp only at hm'
  split_ifs at hm' <;>
    (try dsimp only at hm') <;>
    (try simp only [List.append_assoc, List.singleton_append, List.cons_append] at hm') <;>
    first
      | exact Or.inl hm'
      | (refine mem_append_spec (P := fun x => x.drum = DrumType.ride ∧ 0 < x.duration) h' hm' ?_
         intro x hx; fin_cases hx <;> exact ⟨rfl, by norm_num⟩)

theorem addJazzHihatPattern_mem (hits : List DrumHit) (b bpb v : ℚ) :
    ∀ h ∈ addJazzHihatPattern hits b bpb v,
      h ∈ hits ∨ (h.drum = .hihatClosed ∧ 0 < h.duration) := by
  intro h hm
  simp only [addJazzHihatPattern] at hm
  split_ifs at hm <;>
    (try simp only [List.append_assoc, List.singleton_append, List.cons_append] at hm) <;>
    first
      | exact Or.inl hm
      | (refine mem_append_spec (P := fun x => x.drum = DrumType.hihatClosed ∧ 0 < x.duration)
          h hm ?_
         intro x hx; fin_cases hx <;> exact ⟨rfl, by norm_num⟩)

theorem addFeatheredKick_mem (hits : List DrumHit) (b bpb c d v : ℚ) (rng : ℕ → ℚ) (k : ℕ) :
    ∀ h ∈ (addFeatheredKick hits b bpb c d v rng k).1,
      h ∈ hits ∨ (h.drum = .kick ∧ 0 < h.duration) := by
  intro h hm
  simp only [addFeatheredKick] at hm
  have hfix : ∀ (xs : List ℕ) (init : List DrumHit),
      List.foldl (fun hs _ => hs) init xs = init := by
    intro xs
    induction xs with
    | nil => intro init; rfl
    | cons x xs ih => intro init; exact ih init
  have hloop : ∀ h' ∈ (List.range (qIter bpb)).foldl (fun hs beat => hs ++
      [{ drum := .kick, time := b + (beat : ℚ), velocity := v * 0.3, duration := 0.2 }]) hits,
      h' ∈ hits ∨ (h'.drum = DrumType.kick ∧ 0 < h'.duration) := by
    refine foldl_append_mem _ ?_ _ _
    intro acc x h' hm'
    refine mem_append_spec (P := fun x => x.drum = DrumType.kick ∧ 0 < x.duration) h' hm' ?_
    intro y hy; fin_cases hy; exact ⟨rfl, by norm_num⟩
  split_ifs at hm <;>
    (try dsimp only at hm) <;>
    (try rw [hfix] at hm) <;>
    first
      | exact hloop h hm
      | exact Or.inl hm
      | (have htmp := mem_append_single hm
         rcases htmp with hm2 | heq
         · first
             | exact hloop h hm2
             | exact Or.inl hm2
         · subst heq; exact Or.inr ⟨rfl, by norm_num⟩)

theorem addJazzSnareComping_mem (hits : List DrumHit) (b bpb c v : ℚ) (rng : ℕ → ℚ) (k : ℕ) :
    ∀ h ∈ (addJazzSnareComping hits b bpb c v rng k).1,
      h ∈ hits ∨ (h.drum = .snare ∧ 0 < h.duration) := by
  intro h hm
  simp only [addJazzSnareComping] at hm
  split at hm
  · exact Or.inl hm
  · refine hitsFold_mem (P := fun x => x.drum = DrumType.snare ∧ 0 < x.duration) _ ?_
      (hits, k) h hm
    intro pos _ st h' hm'
    try dsimp only at hm'
    split_ifs at hm' <;>
      (try dsimp only at hm') <;>
      first
        | exact Or.inl hm'
        | (refine mem_append_spec (P := fun x => x.drum = DrumType.snare ∧ 0 < x.duration)
            h' hm' ?_
           intro x hx; fin_cases hx <;> exact ⟨rfl, by norm_num⟩)

theorem addJazzFill_mem (hits : List DrumHit) (b bpb c v : ℚ) :
    ∀ h ∈ addJazzFill hits b bpb c v,
      h ∈ hits ∨ (0 < h.duration ∧ (h.drum = .crash → h.time = b + bpb)) := by
  intro h hm
  simp only [addJazzFill] at hm
  split_ifs at hm <;>
    (try simp only [List.append_assoc, List.singleton_append, List.cons_append] at hm) <;>
    (refine mem_append_spec
        (P := fun x => 0 < x.duration ∧ (x.drum = DrumType.crash → x.time = b + bpb)) h hm ?_
     intro x hx
     fin_cases hx <;>
       first
         | exact ⟨by norm_num, fun hc => DrumType.noConfusion hc⟩
         | exact ⟨by norm_num, fun _ => rfl⟩)

theorem generateJazzPattern_duration (bars : ℕ) (ts : String) (c d : ℚ) (rng : ℕ → ℚ) (k : ℕ) :
    ∀ h ∈ (generateJazzPattern bars ts c d rng k).1, 0 < h.duration := by
  intro h hm
  simp only [generateJazzPattern] at hm
  have hres := hitsFold_mem (P := fun x => 0 < x.duration) _ ?_ ([], k) h hm
  · rcases hres with hres | hres
    · simp at hres
    · exact hres
  intro bar _ st h' hm'
  try dsimp only at hm'
  (try split at hm') <;>
    (try (have htmp := addJazzFill_mem _ _ _ _ _ h' hm'; clear hm'
          rcases htmp with hm' | hsp)) <;>
    (try exact Or.inr hsp.1) <;>
    (have htmp := addJazzSnareComping_mem _ _ _ _ _ _ _ h' hm'; clear hm'
     rcases htmp with hm' | hsp) <;>
    (try exact Or.inr hsp.2) <;>
    (have htmp := addFeatheredKick_mem _ _ _ _ _ _ _ _ h' hm'; clear hm'
     rcases htmp with hm' | hsp) <;>
    (try exact Or.inr hsp.2) <;>
    (have htmp := addJazzHihatPattern_mem _ _ _ _ h' hm'; clear hm'
     rcases htmp with hm' | hsp) <;>
    (try exact Or.inr hsp.2) <;>
    (have htmp := addSwingRidePattern_mem _ _ _ _ _ _ _ h' hm'; clear hm'
     rcases htmp with hm' | hsp) <;>
    first
      | exact Or.inl hm'
      | exact Or.inr hsp.2

theorem addFourOnFloorKick_breakdown (hits : List DrumHit) (b bpb c v : ℚ) :
    addFourOnFloorKick hits b bpb c v true = hits := by
  simp [addFourOnFloorKick]

theorem addElectronicSnare_breakdown (hits : List DrumHit) (b bpb c v : ℚ) :
    addElectronicSnare hits b bpb c v true = hits := by
  simp [addElectronicSnare]

theorem addFourOnFloorKick_mem (hits : List DrumHit) (b bpb c v : ℚ) (br : Bool) :
    ∀ h ∈ addFourOnFloorKick hits b bpb c v br,
      h ∈ hits ∨ (h.drum = .kick ∧ 0 < h.duration ∧
        (h.time < b + bpb ∨ h.time = b + 0.75 ∨ h.time = b + 2.5 ∨ h.time = b + 3.75)) := by
  intro h hm
  simp only [addFourOnFloorKick] at hm
  split_ifs at hm <;>
    (try simp only [List.append_assoc, List.singleton_append, List.cons_append,
      List.nil_append] at hm) <;>
    first
      | exact Or.inl hm
      | (rcases List.mem_append.mp hm with hm1 | hm2
         · exact Or.inl hm1
         · first
             | (obtain ⟨beat, hb, rfl⟩ := List.mem_map.mp hm2
                exact Or.inr ⟨rfl, by norm_num,
                  Or.inl (by have := qIter_lt (List.mem_range.mp hb); linarith)⟩)
             | (rcases List.mem_append.mp hm2 with hm3 | hm4
                · obtain ⟨beat, hb, rfl⟩ := List.mem_map.mp hm3
                  exact Or.inr ⟨rfl, by norm_num,
                    Or.inl (by have := qIter_lt (List.mem_range.mp hb); linarith)⟩
                · right
                  fin_cases hm4 <;> exact ⟨rfl, by norm_num, by norm_num⟩))

theorem addElectronicSnare_mem (hits : List DrumHit) (b bpb c v : ℚ) (br : Bool) :
    ∀ h ∈ addElectronicSnare hits b bpb c v br,
      h ∈ hits ∨ (h.drum = .snare ∧ 0 < h.duration ∧
        (h.time = b + 1 ∨ h.time = b + 3 ∨ h.time = b + 1.5)) := by
  intro h hm
  simp only [addElectronicSnare] at hm
  split_ifs at hm <;>
    (try simp only [List.append_assoc, List.singleton_append, List.cons_append] at hm) <;>
    first
      | exact Or.inl hm
      | (refine mem_append_spec (P := fun x => x.drum = DrumType.snare ∧ 0 < x.duration ∧
          (x.time = b + 1 ∨ x.time = b + 3 ∨ x.time = b + 1.5)) h hm ?_
         intro x hx
         fin_cases hx <;> exact ⟨rfl, by norm_num, by norm_num⟩)

theorem addElectronicHihats_mem (hits : List DrumHit) (b bpb c d v : ℚ) (rng : ℕ → ℚ) (k : ℕ) :
    ∀ h ∈ (addElectronicHihats hits b bpb c d v rng k).1,
      h ∈ hits ∨ ((h.drum = .hihatOpen ∨ h.drum = .hihatClosed) ∧ 0 < h.duration) := by
  intro h hm
  simp only [addElectronicHihats] at hm
  refine hitsFold_mem
    (P := fun x => (x.drum = DrumType.hihatOpen ∨ x.drum = DrumType.hihatClosed) ∧
      0 < x.duration) _ ?_ (hits, k) h hm
  intro i _ st h' hm'
  try dsimp only at hm'
  try simp only [Bool.false_eq_true, if_false] at hm'
  split_ifs at hm' <;>
    (try dsimp only at hm') <;>
    first
      | exact Or.inl hm'
      | (refine mem_append_spec
          (P := fun x => (x.drum = DrumType.hihatOpen ∨ x.drum = DrumType.hihatClosed) ∧
            0 < x.duration) h' hm' ?_
         intro x hx
         fin_cases hx
         first
           | exact ⟨Or.inl rfl, by norm_num⟩
           | exact ⟨Or.inr rfl, by norm_num⟩)

theorem addElectronicPercussion_mem (hits : List DrumHit) (b bpb c v : ℚ) (rng : ℕ → ℚ) (k : ℕ) :
    ∀ h ∈ (addElectronicPercussion hits b bpb c v rng k).1,
      h ∈ hits ∨ (h.drum = .ride ∧ 0 < h.duration) := by
  intro h hm
  simp only [addElectronicPercussion] at hm
  refine hitsFold_mem (P := fun x => x.drum = DrumType.ride ∧ 0 < x.duration) _ ?_ (hits, k) h hm
  intro pos _ st h' hm'
  try dsimp only at hm'
  split_ifs at hm' <;>
    (try dsimp only at hm') <;>
    first
      | exact Or.inl hm'
      | (refine mem_append_spec (P := fun x => x.drum = DrumType.ride ∧ 0 < x.duration) h' hm' ?_
         intro x hx; fin_cases hx <;> exact ⟨rfl, by norm_num⟩)

theorem addElectronicFill_mem (hits : List DrumHit) (b bpb v : ℚ) :
    ∀ h ∈ addElectronicFill hits b bpb v,
      h ∈ hits ∨
        (h.drum = .snare ∧ 0 < h.duration ∧ ∃ i : ℕ, i < 16 ∧
          h.time = b + bpb - 2 + (i : ℚ) * 0.125 ∧
          h.velocity = v * (0.3 + ((i : ℚ) / 16) * 0.7)) ∨
        (h.drum = .crash ∧ 0 < h.duration ∧ h.time = b + bpb ∧ h.velocity = v) := by
  intro h hm
  simp only [addElectronicFill, List.append_assoc] at hm
  rcases List.mem_append.mp hm with hm1 | hm2
  · exact Or.inl hm1
  · rcases List.mem_append.mp hm2 with hm3 | hm4
    · obtain ⟨i, hi, rfl⟩ := List.mem_map.mp hm3
      exact Or.inr (Or.inl ⟨rfl, by norm_num, i, List.mem_range.mp hi, rfl, rfl⟩)
    · right; right
      rw [List.mem_singleton.mp hm4]
      exact ⟨rfl, by norm_num, rfl, rfl⟩

theorem generateElectronicPattern_duration (bars : ℕ) (ts : String) (c d : ℚ)
    (rng : ℕ → ℚ) (k : ℕ) :
    ∀ h ∈ (generateElectronicPattern bars ts c d rng k).1, 0 < h.duration := by
  intro h hm
  simp only [generateElectronicPattern] at hm
  have hres := hitsFold_mem (P := fun x => 0 < x.duration) _ ?_ ([], k) h hm
  · rcases hres with hres | hres
    · simp at hres
    · exact hres
  intro bar _ st h' hm'
  try dsimp only at hm'
  (try split at hm') <;>
    (try (have htmp := addElectronicFill_mem _ _ _ _ h' hm'; clear hm'
          rcases htmp with hm' | hsp | hsp)) <;>
    (try exact Or.inr hsp.2.1) <;>
    (try split at hm') <;>
    (try dsimp only at hm') <;>
    (try (have htmp := addElectronicPercussion_mem _ _ _ _ _ _ _ h' hm'; clear hm'
          rcases htmp with hm' | hsp)) <;>
    (try exact Or.inr hsp.2) <;>
    (have htmp := addElectronicHihats_mem _ _ _ _ _ _ _ _ h' hm'; clear hm'
     rcases htmp with hm' | hsp) <;>
    (try exact Or.inr hsp.2) <;>
    (have htmp := addElectronicSnare_mem _ _ _ _ _ _ h' hm'; clear hm'
     rcases htmp with hm' | hsp) <;>
    (try exact Or.inr hsp.2.1) <;>
    (have htmp := addFourOnFloorKick_mem _ _ _ _ _ _ h' hm'; clear hm'
     rcases htmp with hm' | hsp) <;>
    first
      | exact Or.inl hm'
      | exact Or.inr hsp.2.1

theorem addLatinKick_mem (hits : List DrumHit) (b bpb : ℚ) (cb : ℕ) (c v : ℚ) :
    ∀ h ∈ addLatinKick hits b bpb cb c v, h ∈ hits ∨ (h.drum = .kick ∧ 0 < h.duration) := by
  intro h hm
  simp only [addLatinKick] at hm
  split_ifs at hm <;>
    (try simp only [List.append_assoc, List.singleton_append, List.cons_append] at hm) <;>
    first
      | exact Or.inl hm
      | (refine mem_append_spec (P := fun x => x.drum = DrumType.kick ∧ 0 < x.duration) h hm ?_
         intro x hx; fin_cases hx <;> exact ⟨rfl, by norm_num⟩)

theorem addLatinSnare_mem (hits : List DrumHit) (b bpb : ℚ) (cb : ℕ) (c v : ℚ) :
    ∀ h ∈ addLatinSnare hits b bpb cb c v, h ∈ hits ∨ (h.drum = .snare ∧ 0 < h.duration) := by
  intro h hm
  simp only [addLatinSnare] at hm
  split_ifs at hm <;>
    (try simp only [List.append_assoc, List.singleton_append, List.cons_append] at hm) <;>
    first
      | exact Or.inl hm
      | (refine mem_append_spec (P := fun x => x.drum = DrumType.snare ∧ 0 < x.duration) h hm ?_
         intro x hx; fin_cases hx <;> exact ⟨rfl, by norm_num⟩)

theorem addLatinCymbal_mem (hits : List DrumHit) (b bpb c d v : ℚ) :
    ∀ h ∈ addLatinCymbal hits b bpb c d v, h ∈ hits ∨ 0 < h.duration := by
  intro h hm
  simp only [addLatinCymbal] at hm
  split_ifs at hm <;>
    (try simp only [List.append_assoc, List.singleton_append, List.cons_append] at hm) <;>
    (rcases List.mem_append.mp hm with hm1 | hm2
     · exact Or.inl hm1
     · first
         | (obtain ⟨i, _, rfl⟩ := List.mem_map.mp hm2
            exact Or.inr (by norm_num))
         | (rcases List.mem_append.mp hm2 with hm3 | hm4
            · obtain ⟨i, _, rfl⟩ := List.mem_map.mp hm3
              exact Or.inr (by norm_num)
            · right
              fin_cases hm4 <;> norm_num))

theorem addCascaraPattern_mem (hits : List DrumHit) (b bpb : ℚ) (cb : ℕ) (c v : ℚ) :
    ∀ h ∈ addCascaraPattern hits b bpb cb c v, h ∈ hits ∨ 0 < h.duration := by
  intro h hm
  simp only [addCascaraPattern] at hm
  split_ifs at hm <;>
    first
      | exact Or.inl hm
      | (rcases List.mem_append.mp hm with hm1 | hm2
         · exact Or.inl hm1
         · obtain ⟨pos, _, rfl⟩ := List.mem_map.mp hm2
           exact Or.inr (by norm_num))

theorem addBellPattern_mem (hits : List DrumHit) (b bpb c v : ℚ) (rng : ℕ → ℚ) (k : ℕ) :
    ∀ h ∈ (addBellPattern hits b bpb c v rng k).1,
      h ∈ hits ∨ (h.drum = .crash ∧ 0 < h.duration) := by
  intro h hm
  simp only [addBellPattern] at hm
  refine hitsFold_mem (P := fun x => x.drum = DrumType.crash ∧ 0 < x.duration) _ ?_ (hits, k) h hm
  intro pos _ st h' hm'
  try dsimp only at hm'
  split_ifs at hm' <;>
    (try dsimp only at hm') <;>
    first
      | exact Or.inl hm'
      | (refine mem_append_spec (P := fun x => x.drum = DrumType.crash ∧ 0 < x.duration) h' hm' ?_
         intro x hx; fin_cases hx <;> exact ⟨rfl, by norm_num⟩)

theorem generateLatinPattern_duration (bars : ℕ) (ts : String) (c d : ℚ) (rng : ℕ → ℚ) (k : ℕ) :
    ∀ h ∈ (generateLatinPattern bars ts c d rng k).1, 0 < h.duration := by
  intro h hm
  simp only [generateLatinPattern] at hm
  have hres := hitsFold_mem (P := fun x => 0 < x.duration) _ ?_ ([], k) h hm
  · rcases hres with hres | hres
    · simp at hres
    · exact hres
  intro bar _ st h' hm'
  try dsimp only at hm'
  (try simp only [apply_ite Prod.fst] at hm') <;>
  (try split at hm') <;>
    (try dsimp only at hm') <;>
    (try (have htmp := addBellPattern_mem _ _ _ _ _ _ _ h' hm'; clear hm'
          rcases htmp with hm' | hsp)) <;>
    (try exact Or.inr hsp.2) <;>
    (try split at hm') <;>
    (try (have htmp := addCascaraPattern_mem _ _ _ _ _ _ h' hm'; clear hm'
          rcases htmp with hm' | hsp)) <;>
    (try exact Or.inr hsp) <;>
    (have htmp := addLatinCymbal_mem _ _ _ _ _ _ h' hm'; clear hm'
     rcases htmp with hm' | hsp) <;>
    (try exact Or.inr hsp) <;>
    (have htmp := addLatinSnare_mem _ _ _ _ _ _ h' hm'; clear hm'
     rcases htmp with hm' | hsp) <;>
    (try exact Or.inr hsp.2) <;>
    (have htmp := addLatinKick_mem _ _ _ _ _ _ h' hm'; clear hm'
     rcases htmp with hm' | hsp) <;>
    first
      | exact Or.inl hm'
      | exact Or.inr hsp.2

theorem addLofiRide_mem (hits : List DrumHit) (b bpb c v : ℚ) (rng : ℕ → ℚ) (k : ℕ) :
    ∀ h ∈ (addLofiRide hits b bpb c v rng k).1,
      h ∈ hits ∨ (h.drum = .ride ∧ 0 < h.duration) := by
  intro h hm
  simp only [addLofiRide] at hm
  refine hitsFold_mem (P := fun x => x.drum = DrumType.ride ∧ 0 < x.duration) _ ?_ (hits, k) h hm
  intro i _ st h' hm'
  try dsimp only at hm'
  split_ifs at hm' <;>
    (try dsimp only at hm') <;>
    (try simp only [List.append_assoc, List.singleton_append, List.cons_append] at hm') <;>
    first
      | exact Or.inl hm'
      | (refine mem_append_spec (P := fun x => x.drum = DrumType.ride ∧ 0 < x.duration) h' hm' ?_
         intro x hx; fin_cases hx <;> exact ⟨rfl, by norm_num⟩)

theorem addLofiKick_mem (hits : List DrumHit) (b bpb c v : ℚ) (rng : ℕ → ℚ) (k : ℕ) :
    ∀ h ∈ (addLofiKick hits b bpb c v rng k).1,
      h ∈ hits ∨ (h.drum = .kick ∧ 0 < h.duration) := by
  intro h hm
  simp only [addLofiKick] at hm
  split_ifs at hm <;>
    (try dsimp only at hm) <;>
    (try simp only [List.append_assoc, List.singleton_append, List.cons_append] at hm) <;>
    first
      | exact Or.inl hm
      | (refine mem_append_spec (P := fun x => x.drum = DrumType.kick ∧ 0 < x.duration) h hm ?_
         intro x hx; fin_cases hx <;> exact ⟨rfl, by norm_num⟩)

theorem addLofiSnare_mem (hits : List DrumHit) (b bpb c v : ℚ) (rng : ℕ → ℚ) (k : ℕ) :
    ∀ h ∈ (addLofiSnare hits b bpb c v rng k).1,
      h ∈ hits ∨ (h.drum = .snare ∧ 0 < h.duration) := by
  intro h hm
  simp only [addLofiSnare] at hm
  split_ifs at hm <;>
    (try dsimp only at hm) <;>
    (try simp only [List.append_assoc, List.singleton_append, List.cons_append] at hm) <;>
    first
      | exact Or.inl hm
      | (refine mem_append_spec (P := fun x => x.drum = DrumType.snare ∧ 0 < x.duration) h hm ?_
         intro x hx; fin_cases hx <;> exact ⟨rfl, by norm_num⟩)
      | (have hfold := hitsFold_mem (P := fun x => x.drum = DrumType.snare ∧ 0 < x.duration)
          ghostPositions ?_ _ h hm
         rcases hfold with hm2 | hsp
         · refine mem_append_spec (P := fun x => x.drum = DrumType.snare ∧ 0 < x.duration)
             h hm2 ?_
           intro x hx; fin_cases hx <;> exact ⟨rfl, by norm_num⟩
         · exact Or.inr hsp
         · intro g _ st h' hm'
           try dsimp only at hm'
           split_ifs at hm' <;>
             (try dsimp only at hm') <;>
             first
               | exact Or.inl hm'
               | (refine mem_append_spec
                   (P := fun x => x.drum = DrumType.snare ∧ 0 < x.duration) h' hm' ?_
                  intro x hx; fin_cases hx <;> exact ⟨rfl, by norm_num⟩))

theorem addLofiHihat_mem (hits : List DrumHit) (b bpb c v : ℚ) (rng : ℕ → ℚ) (k : ℕ) :
    ∀ h ∈ (addLofiHihat hits b bpb c v rng k).1,
      h ∈ hits ∨ ((h.drum = .hihatOpen ∨ h.drum = .hihatClosed) ∧ 0 < h.duration) := by
  intro h hm
  simp only [addLofiHihat] at hm
  split_ifs at hm <;>
    (try dsimp only at hm) <;>
    (try simp only [List.append_assoc, List.singleton_append, List.cons_append] at hm) <;>
    first
      | exact Or.inl hm
      | (refine mem_append_spec
          (P := fun x => (x.drum = DrumType.hihatOpen ∨ x.drum = DrumType.hihatClosed) ∧
            0 < x.duration) h hm ?_
         intro x hx
         fin_cases hx <;>
           first
             | exact ⟨Or.inl rfl, by norm_num⟩
             | exact ⟨Or.inr rfl, by norm_num⟩)

theorem generateLofiPattern_duration (bars : ℕ) (ts : String) (c d : ℚ) (rng : ℕ → ℚ) (k : ℕ) :
    ∀ h ∈ (generateLofiPattern bars ts c d rng k).1, 0 < h.duration := by
  intro h hm
  simp only [generateLofiPattern] at hm
  have hres := hitsFold_mem (P := fun x => 0 < x.duration) _ ?_ ([], k) h hm
  · rcases hres with hres | hres
    · simp at hres
    · exact hres
  intro bar _ st h' hm'
  try dsimp only at hm'
  (have htmp := addLofiHihat_mem _ _ _ _ _ _ _ h' hm'; clear hm'
   rcases htmp with hm' | hsp) <;>
    (try exact Or.inr hsp.2) <;>
    (have htmp := addLofiSnare_mem _ _ _ _ _ _ _ h' hm'; clear hm'
     rcases htmp with hm' | hsp) <;>
    (try exact Or.inr hsp.2) <;>
    (have htmp := addLofiKick_mem _ _ _ _ _ _ _ h' hm'; clear hm'
     rcases htmp with hm' | hsp) <;>
    (try exact Or.inr hsp.2) <;>
    (have htmp := addLofiRide_mem _ _ _ _ _ _ _ h' hm'; clear hm'
     rcases htmp with hm' | hsp) <;>
    first
      | exact Or.inl hm'
      | exact Or.inr hsp.2

/-! ## Pipeline-level lemmas -/

theorem generatePattern_hits (s : GeneratorSettings) (rng : ℕ → ℚ) :
    (generatePattern s rng).hits = deduplicateHits (preDedupHits s rng) := rfl

theorem generateBasePattern_duration (s : GeneratorSettings) (rng : ℕ → ℚ) (k : ℕ) :
    ∀ h ∈ (generateBasePattern s rng k).1, 0 < h.duration := by
  intro h hm
  unfold generateBasePattern at hm
  split_ifs at hm <;>
    first
      | exact generateRockPattern_duration _ _ _ _ _ _ h hm
      | exact generateJazzPattern_duration _ _ _ _ _ _ h hm
      | exact generateElectronicPattern_duration _ _ _ _ _ _ h hm
      | exact generateLatinPattern_duration _ _ _ _ _ _ h hm
      | exact generateLofiPattern_duration _ _ _ _ _ _ h hm

theorem humanizePattern_enabled (hits : List DrumHit) (tv vv : ℚ) (rng : ℕ → ℚ) (k : ℕ) :
    humanizePattern hits ⟨tv, vv, true⟩ rng k = humanizeHits hits ⟨tv, vv, true⟩ rng k := rfl

theorem mem_preDedupHits {s : GeneratorSettings} {rng : ℕ → ℚ} {h : DrumHit}
    (hm : h ∈ preDedupHits s rng) :
    ∃ h₀ ∈ swingStage s (generateBasePattern s rng 0).1, ∃ i j : ℕ,
      h = humanizeHit h₀ ⟨0.4, 0.3, true⟩ (rng i) (rng j) := by
  unfold preDedupHits at hm
  have hm2 := (sortHits_perm _).mem_iff.mp hm
  rw [humanizePattern_enabled] at hm2
  obtain ⟨h₀, hm0, i, j, he⟩ := humanizeHits_mem _ _ h hm2
  exact ⟨h₀, hm0, i, j, he⟩

theorem swingStage_duration {s : GeneratorSettings} {hits : List DrumHit} {h : DrumHit}
    (hm : h ∈ swingStage s hits) : ∃ h₁ ∈ hits, h.duration = h₁.duration := by
  unfold swingStage at hm
  split_ifs at hm <;>
    first
      | (obtain ⟨h₁, hm1, rfl⟩ := List.mem_map.mp hm
         exact ⟨h₁, hm1, swingHit_duration _ _⟩)
      | exact ⟨h, hm, rfl⟩

theorem generatePattern_bounds (s : GeneratorSettings) (rng : ℕ → ℚ) :
    ∀ h ∈ (generatePattern s rng).hits,
      0 ≤ h.time ∧ 0.1 ≤ h.velocity ∧ h.velocity ≤ 1 ∧ 0 < h.duration := by
  intro h hm
  rw [generatePattern_hits] at hm
  have hm1 := mem_of_mem_dedup hm
  obtain ⟨h₀, hm0, i, j, rfl⟩ := mem_preDedupHits hm1
  refine ⟨?_, ?_, ?_, ?_⟩
  · rw [humanizeHit_time]; exact le_max_left _ _
  · rw [humanizeHit_velocity]; exact (clamp_bounds _).1
  · rw [humanizeHit_velocity]; exact (clamp_bounds _).2
  · rw [humanizeHit_duration]
    obtain ⟨h₁, hm1', heq⟩ := swingStage_duration hm0
    rw [heq]
    exact generateBasePattern_duration s rng 0 h₁ hm1'

/-! ## Claims -/

/-- C1: for every `GeneratorSettings` input and every outcome of the shared
random source, every hit in the `Pattern` returned by `generatePattern`
satisfies `time ≥ 0`, `0.1 ≤ velocity ≤ 1.0`, and `duration > 0`. -/
theorem claim_C1 (s : GeneratorSettings) (rng : ℕ → ℚ) :
    ((generatePattern s rng).hits).all
      (fun h => decide (0 ≤ h.time ∧ 0.1 ≤ h.velocity ∧ h.velocity ≤ 1 ∧ 0 < h.duration)) =
      true := by
  rw [List.all_eq_true]
  intro h hm
  rw [decide_eq_true_iff]
  exact generatePattern_bounds s rng h hm

/-- C2: for every `GeneratorSettings` input and every outcome of the random
source, the `hits` array of the `Pattern` returned by `generatePattern` is
sorted non-decreasing by `time`. -/
theorem claim_C2 (s : GeneratorSettings) (rng : ℕ → ℚ) :
    ((generatePattern s rng).hits).Sorted timeLE := by
  rw [generatePattern_hits]
  exact dedup_sorted _

/-- C3: in the output of `generatePattern` no two distinct hits share both the
drum and the value of `round(time * 1000)`; every hit of the output is one of
the pre-deduplication hits; every pre-deduplication key is still represented;
and the kept hit has the highest velocity among the pre-deduplication hits
sharing its key. -/
theorem claim_C3 (s : GeneratorSettings) (rng : ℕ → ℚ) :
    ((generatePattern s rng).hits).Pairwise
      (fun a b => ¬(a.drum = b.drum ∧ jsRound (a.time * 1000) = jsRound (b.time * 1000))) ∧
    ((generatePattern s rng).hits).all
      (fun h => decide (h ∈ preDedupHits s rng)) = true ∧
    (preDedupHits s rng).all
      (fun h' => ((generatePattern s rng).hits).any
        (fun h => decide (hitKey h = hitKey h'))) = true ∧
    ((generatePattern s rng).hits).all
      (fun h => (preDedupHits s rng).all
        (fun h' => !(decide (hitKey h' = hitKey h)) || decide (h'.velocity ≤ h.velocity))) =
      true := by
  refine ⟨?_, ?_, ?_, ?_⟩
  · rw [generatePattern_hits]
    refine (dedup_pairwise_keys (preDedupHits s rng)).imp ?_
    intro a b hne hc
    exact hne (Prod.ext_iff.mpr ⟨hc.1, hc.2⟩)
  · rw [List.all_eq_true]
    intro h hm
    rw [decide_eq_true_iff]
    rw [generatePattern_hits] at hm
    exact mem_of_mem_dedup hm
  · rw [List.all_eq_true]
    intro h' hm'
    rw [List.any_eq_true]
    obtain ⟨h, hmd, hk⟩ := dedup_keycover h' hm'
    exact ⟨h, by rw [generatePattern_hits]; exact hmd, by rw [decide_eq_true_iff]; exact hk⟩
  · rw [List.all_eq_true]
    intro h hm
    rw [List.all_eq_true]
    intro h' hm'
    rw [generatePattern_hits] at hm
    by_cases hk : hitKey h' = hitKey h
    · have := dedup_maxvel h hm h' hm' hk
      simp [this]
    · simp [hk]

/-- C4: the assembler (sort ascending by time followed by `deduplicateHits`)
is idempotent on every list of `DrumHit`s. -/
theorem claim_C4 (l : List DrumHit) : assembleHits (assembleHits l) = assembleHits l := by
  have hsorted : (assembleHits l).Sorted timeLE := dedup_sorted _
  have hpw : (assembleHits l).Pairwise (fun a b => hitKey a ≠ hitKey b) := dedup_pairwise_keys _
  show deduplicateHits (sortHits (assembleHits l)) = assembleHits l
  rw [sortHits_of_sorted hsorted, dedup_of_pairwise hpw, sortHits_of_sorted hsorted]

theorem validRng_constHalf : validRng constHalf := by
  intro n
  constructor <;> norm_num [constHalf]

/-- C5: `swingPattern` maps each hit independently; a hit whose `time mod 1`
lies within `0.1` of `0.5` has its time increased by exactly `0.17 × amount`
with all other fields unchanged, and every other hit passes through unchanged;
inside the generator the stage is applied exactly for jazz (amount `0.6`) and
lofi (amount `0.5`) and skipped for every other style. -/
theorem claim_C5 :
    (∀ (hits : List DrumHit) (amount : ℚ),
      swingPattern hits amount = hits.map (swingHit amount)) ∧
    (∀ (amount : ℚ) (h : DrumHit), |jsMod1 h.time - 0.5| < 0.1 →
      swingHit amount h =
        { drum := h.drum, time := h.time + 0.17 * amount,
          velocity := h.velocity, duration := h.duration }) ∧
    (∀ (amount : ℚ) (h : DrumHit), ¬(|jsMod1 h.time - 0.5| < 0.1) →
      swingHit amount h = h) ∧
    (∀ (s : GeneratorSettings) (hits : List DrumHit),
      s.kitStyle = "jazz" → swingStage s hits = swingPattern hits 0.6) ∧
    (∀ (s : GeneratorSettings) (hits : List DrumHit),
      s.kitStyle = "lofi" → swingStage s hits = swingPattern hits 0.5) ∧
    (∀ (s : GeneratorSettings) (hits : List DrumHit),
      s.kitStyle ≠ "jazz" → s.kitStyle ≠ "lofi" → swingStage s hits = hits) ∧
    (∀ (s : GeneratorSettings) (rng : ℕ → ℚ),
      (generatePattern s rng).hits = deduplicateHits (sortHits
        (humanizePattern (swingStage s (generateBasePattern s rng 0).1)
          ⟨0.4, 0.3, true⟩ rng (generateBasePattern s rng 0).2).1)) := by
  refine ⟨fun _ _ => rfl, ?_, ?_, ?_, ?_, ?_, fun _ _ => rfl⟩
  · intro amount h hcond
    simp only [swingHit]
    rw [if_pos hcond]
  · intro amount h hcond
    simp only [swingHit]
    rw [if_neg hcond]
  · intro s hits hks
    unfold swingStage
    rw [if_pos hks]
  · intro s hits hks
    unfold swingStage
    rw [if_neg (by rw [hks]; decide), if_pos hks]
  · intro s hits h1 h2
    unfold swingStage
    rw [if_neg h1, if_neg h2]

theorem claim_C5_witness :
    swingHit 0.6 { drum := .kick, time := 0.5, velocity := 0.5, duration := 0.25 } =
      { drum := DrumType.kick, time := (0.5 : ℚ) + 0.17 * 0.6,
        velocity := 0.5, duration := 0.25 } ∧
    swingHit 0.6 { drum := .kick, time := 0, velocity := 0.5, duration := 0.25 } =
      { drum := .kick, time := 0, velocity := 0.5, duration := 0.25 } :=
  ⟨claim_C5.2.1 0.6 _ (by norm_num [jsMod1, jsTrunc]),
   claim_C5.2.2.1 0.6 _ (by
     norm_num [jsMod1, jsTrunc]
     rw [abs_of_nonneg (show (0:ℚ) ≤ 1/2 by norm_num)]
     norm_num)⟩

theorem humanizeHits_forall₂ {o : HumanizeOptions} {rng : ℕ → ℚ}
    (hv : validRng rng) (htv : 0 ≤ o.timingVariation) (hvv : 0 ≤ o.velocityVariation) :
    ∀ (l : List DrumHit) (k : ℕ),
      List.Forall₂ (fun h h' : DrumHit =>
        h'.drum = h.drum ∧ h'.duration = h.duration ∧
        ∃ δ ε : ℚ, |δ| ≤ 0.03 * o.timingVariation ∧ |ε| ≤ 0.15 * o.velocityVariation ∧
          h'.time = max 0 (h.time + δ) ∧
          h'.velocity = max 0.1 (min 1 (h.velocity + ε)))
        l (humanizeHits l o rng k).1 := by
  intro l
  induction l with
  | nil => intro k; exact List.Forall₂.nil
  | cons hit rest ih =>
    intro k
    refine List.forall₂_cons.mpr ⟨⟨rfl, rfl, ?_⟩, ih (k + 2)⟩
    refine ⟨(rng k - 0.5) * 2 * (0.03 * o.timingVariation),
      (rng (k + 1) - 0.5) * 2 * (0.15 * o.velocityVariation), ?_, ?_, rfl, rfl⟩
    · exact draw_offset_abs (hv k).1 (hv k).2 (by nlinarith)
    · exact draw_offset_abs (hv (k + 1)).1 (hv (k + 1)).2 (by nlinarith)

/-- C6: `humanizePattern` with `enabled = false` returns the input unchanged;
with `enabled = true` it maps each hit independently, for every outcome of the
random draws, to a hit with `time' = max(0, time + δ)` where
`|δ| ≤ 0.03 × timingVariation` and
`velocity' = clamp(velocity + ε, 0.1, 1.0)` where
`|ε| ≤ 0.15 × velocityVariation`, leaving drum and duration unchanged. -/
theorem claim_C6 :
    (∀ (hits : List DrumHit) (o : HumanizeOptions) (rng : ℕ → ℚ) (k : ℕ),
      o.enabled = false → humanizePattern hits o rng k = (hits, k)) ∧
    (∀ (hits : List DrumHit) (o : HumanizeOptions) (rng : ℕ → ℚ) (k : ℕ),
      o.enabled = true → validRng rng →
      0 ≤ o.timingVariation → 0 ≤ o.velocityVariation →
      List.Forall₂ (fun h h' : DrumHit =>
        h'.drum = h.drum ∧ h'.duration = h.duration ∧
        ∃ δ ε : ℚ, |δ| ≤ 0.03 * o.timingVariation ∧ |ε| ≤ 0.15 * o.velocityVariation ∧
          h'.time = max 0 (h.time + δ) ∧
          h'.velocity = max 0.1 (min 1 (h.velocity + ε)))
        hits (humanizePattern hits o rng k).1) := by
  constructor
  · intro hits o rng k he
    simp [humanizePattern, he]
  · intro hits o rng k he hv htv hvv
    unfold humanizePattern
    rw [he]
    simp only [if_true]
    exact humanizeHits_forall₂ hv htv hvv hits k

theorem claim_C6_witness :
    humanizePattern [{ drum := .kick, time := 0, velocity := 0.5, duration := 0.25 }]
      ⟨0.4, 0.3, false⟩ constHalf 0 =
      ([{ drum := .kick, time := 0, velocity := 0.5, duration := 0.25 }], 0) ∧
    List.Forall₂ (fun h h' : DrumHit =>
        h'.drum = h.drum ∧ h'.duration = h.duration ∧
        ∃ δ ε : ℚ, |δ| ≤ 0.03 * (0.4 : ℚ) ∧ |ε| ≤ 0.15 * (0.3 : ℚ) ∧
          h'.time = max 0 (h.time + δ) ∧
          h'.velocity = max 0.1 (min 1 (h.velocity + ε)))
      [{ drum := .kick, time := 0, velocity := 0.5, duration := 0.25 }]
      (humanizePattern [{ drum := .kick, time := 0, velocity := 0.5, duration := 0.25 }]
        ⟨0.4, 0.3, true⟩ constHalf 0).1 :=
  ⟨claim_C6.1 _ _ _ _ rfl,
   claim_C6.2 _ ⟨0.4, 0.3, true⟩ _ _ rfl validRng_constHalf (by norm_num) (by norm_num)⟩

/-- C9: an unrecognized `kitStyle` falls through the switch to the rock
template; an unrecognized `timeSignature` yields `beatsPerBar = 4`; in both
cases `generatePattern` still returns a pattern satisfying the ordering and
bound invariants rather than reporting an error. -/
theorem claim_C9 (s : GeneratorSettings) (rng : ℕ → ℚ) :
    (s.kitStyle ≠ "rock" → s.kitStyle ≠ "jazz" → s.kitStyle ≠ "electronic" →
      s.kitStyle ≠ "latin" → s.kitStyle ≠ "lofi" →
      ∀ k, generateBasePattern s rng k =
        generateRockPattern s.bars s.timeSignature s.complexity s.dynamics rng k) ∧
    (s.timeSignature ≠ "3/4" → s.timeSignature ≠ "4/4" → s.timeSignature ≠ "5/4" →
      s.timeSignature ≠ "6/8" → s.timeSignature ≠ "7/8" →
      getBeatsPerBar s.timeSignature = 4 ∧
      (generatePattern s rng).lengthInBeats = (s.bars : ℚ) * 4) ∧
    ((generatePattern s rng).lengthInBeats = (s.bars : ℚ) * getBeatsPerBar s.timeSignature) ∧
    ((generatePattern s rng).hits).Sorted timeLE ∧
    (((generatePattern s rng).hits).all
      (fun h => decide (0 ≤ h.time ∧ 0.1 ≤ h.velocity ∧ h.velocity ≤ 1 ∧ 0 < h.duration)) =
      true) := by
  refine ⟨?_, ?_, rfl, dedup_sorted _, ?_⟩
  · intro h1 h2 h3 h4 h5 k
    unfold generateBasePattern
    rw [if_neg h1, if_neg h2, if_neg h3, if_neg h4, if_neg h5]
  · intro h1 h2 h3 h4 h5
    have hb : getBeatsPerBar s.timeSignature = 4 := by
      unfold getBeatsPerBar
      rw [if_neg h1, if_neg h2, if_neg h3, if_neg h4, if_neg h5]
    exact ⟨hb, by show (s.bars : ℚ) * getBeatsPerBar s.timeSignature = _; rw [hb]⟩
  · rw [List.all_eq_true]
    intro h hm
    rw [decide_eq_true_iff]
    exact generatePattern_bounds s rng h hm

theorem claim_C9_witness :
    (generateBasePattern ⟨"funk", "9/8", 120, 2, 0.5, 0.5⟩ constHalf 0 =
      generateRockPattern 2 "9/8" 0.5 0.5 constHalf 0) ∧
    getBeatsPerBar "9/8" = 4 :=
  ⟨(claim_C9 ⟨"funk", "9/8", 120, 2, 0.5, 0.5⟩ constHalf).1
      (by decide) (by decide) (by decide) (by decide) (by decide) 0,
   ((claim_C9 ⟨"funk", "9/8", 120, 2, 0.5, 0.5⟩ constHalf).2.1
      (by decide) (by decide) (by decide) (by decide) (by decide)).1⟩

/-! ## Counting lemmas for the jazz template (used for the phrase-end crash) -/

theorem addSwingRidePattern_countP (p : DrumHit → Bool)
    (hp : ∀ x : DrumHit, x.drum = .ride → p x = false)
    (hits : List DrumHit) (b bpb c v : ℚ) (rng : ℕ → ℚ) (k : ℕ) :
    ((addSwingRidePattern hits b bpb c v rng k).1).countP p = hits.countP p := by
  simp only [addSwingRidePattern]
  refine Eq.trans (hitsFold_countP (fun _ => 0) (List.range (qIter bpb)) ?_ (hits, k)) ?_
  · intro i _ st
    dsimp only
    split_ifs <;>
      (try dsimp only) <;>
      simp [List.countP_append, List.countP_cons, hp]
  · simp

theorem addJazzHihatPattern_countP (p : DrumHit → Bool)
    (hp : ∀ x : DrumHit, x.drum = .hihatClosed → p x = false)
    (hits : List DrumHit) (b bpb v : ℚ) :
    (addJazzHihatPattern hits b bpb v).countP p = hits.countP p := by
  simp only [addJazzHihatPattern]
  split_ifs <;> simp [List.countP_append, List.countP_cons, hp]

theorem addFeatheredKick_countP (p : DrumHit → Bool)
    (hp : ∀ x : DrumHit, x.drum = .kick → p x = false)
    (hits : List DrumHit) (b bpb c d v : ℚ) (rng : ℕ → ℚ) (k : ℕ) :
    ((addFeatheredKick hits b bpb c d v rng k).1).countP p = hits.countP p := by
  simp only [addFeatheredKick]
  have hloop1 : ∀ (xs : List ℕ) (init : List DrumHit),
      (xs.foldl (fun hs beat => hs ++
        [{ drum := .kick, time := b + (beat : ℚ), velocity := v * 0.3, duration := 0.2 }])
        init).countP p = init.countP p := by
    intro xs
    induction xs with
    | nil => intro init; rfl
    | cons x xs ih =>
      intro init
      rw [List.foldl_cons, ih]
      simp [List.countP_append, List.countP_cons, hp]
  have hfix : ∀ (xs : List ℕ) (init : List DrumHit),
      List.foldl (fun (hs : List DrumHit) (_ : ℕ) => hs) init xs = init := by
    intro xs
    induction xs with
    | nil => intro init; rfl
    | cons x xs ih => intro init; exact ih init
  split_ifs <;>
    (try dsimp only) <;>
    simp [List.countP_append, List.countP_cons, hp, hloop1, hfix]

theorem addJazzSnareComping_countP (p : DrumHit → Bool)
    (hp : ∀ x : DrumHit, x.drum = .snare → p x = false)
    (hits : List DrumHit) (b bpb c v : ℚ) (rng : ℕ → ℚ) (k : ℕ) :
    ((addJazzSnareComping hits b bpb c v rng k).1).countP p = hits.countP p := by
  simp only [addJazzSnareComping]
  split
  · rfl
  · refine Eq.trans (hitsFold_countP (fun _ => 0) compingPositions ?_ (hits, k)) ?_
    · intro pos _ st
      dsimp only
      split_ifs <;>
        (try dsimp only) <;>
        simp [List.countP_append, List.countP_cons, hp]
    · simp

theorem addJazzFill_countP_crash (hits : List DrumHit) (b bpb c v : ℚ) :
    (addJazzFill hits b bpb c v).countP (fun h => decide (h.drum = DrumType.crash)) =
      hits.countP (fun h => decide (h.drum = DrumType.crash)) + 1 := by
  simp only [addJazzFill]
  split_ifs <;> simp [List.countP_append, List.countP_cons]

theorem gbb44 : getBeatsPerBar "4/4" = 4 := by
  unfold getBeatsPerBar
  rw [if_neg (by decide), if_pos rfl]

theorem jazz_c10_crash_count :
    ((generateJazzPattern 4 "4/4" 0.6 0 constHalf 0).1).countP
      (fun h => decide (h.drum = DrumType.crash)) = 1 := by
  have hpride : ∀ x : DrumHit, x.drum = .ride →
      (fun h => decide (h.drum = DrumType.crash)) x = false := by
    intro x hx; simp [hx]
  have hphat : ∀ x : DrumHit, x.drum = .hihatClosed →
      (fun h => decide (h.drum = DrumType.crash)) x = false := by
    intro x hx; simp [hx]
  have hpkick : ∀ x : DrumHit, x.drum = .kick →
      (fun h => decide (h.drum = DrumType.crash)) x = false := by
    intro x hx; simp [hx]
  have hpsnare : ∀ x : DrumHit, x.drum = .snare →
      (fun h => decide (h.drum = DrumType.crash)) x = false := by
    intro x hx; simp [hx]
  simp only [generateJazzPattern]
  refine Eq.trans (hitsFold_countP (fun bar => if (bar + 1) % 4 = 0 then 1 else 0)
    (List.range 4) ?_ ([], 0)) ?_
  · intro bar hbar st
    dsimp only
    split
    next hcond =>
      rw [addJazzFill_countP_crash,
        addJazzSnareComping_countP _ hpsnare,
        addFeatheredKick_countP _ hpkick,
        addJazzHihatPattern_countP _ hphat,
        addSwingRidePattern_countP _ hpride,
        if_pos (of_decide_eq_true hcond.1)]
    next hcond =>
      rw [addJazzSnareComping_countP _ hpsnare,
        addFeatheredKick_countP _ hpkick,
        addJazzHihatPattern_countP _ hphat,
        addSwingRidePattern_countP _ hpride,
        if_neg (fun hmod => hcond ⟨decide_eq_true hmod, by norm_num⟩)]
      omega
  · simp only [List.countP_nil, Nat.zero_add]
    decide

theorem jazz_c10_crash_time :
    ∀ h ∈ (generateJazzPattern 4 "4/4" 0.6 0 constHalf 0).1,
      h.drum = .crash → h.time = 16 := by
  intro h hm
  simp only [generateJazzPattern] at hm
  have hres := hitsFold_mem (P := fun x => x.drum = DrumType.crash → x.time = 16)
    _ ?_ ([], 0) h hm
  · rcases hres with hres | hres
    · simp at hres
    · exact hres
  intro bar hbar st h' hm'
  dsimp only at hm'
  have hb4 := List.mem_range.mp hbar
  split at hm'
  next hcond =>
    have htmp := addJazzFill_mem _ _ _ _ _ h' hm'
    rcases htmp with hm' | hsp
    · (have htmp := addJazzSnareComping_mem _ _ _ _ _ _ _ h' hm'; clear hm'
       rcases htmp with hm' | hsp) <;>
        (try exact Or.inr (fun hc => by rw [hsp.1] at hc; exact DrumType.noConfusion hc)) <;>
        (have htmp := addFeatheredKick_mem _ _ _ _ _ _ _ _ h' hm'; clear hm'
         rcases htmp with hm' | hsp) <;>
        (try exact Or.inr (fun hc => by rw [hsp.1] at hc; exact DrumType.noConfusion hc)) <;>
        (have htmp := addJazzHihatPattern_mem _ _ _ _ h' hm'; clear hm'
         rcases htmp with hm' | hsp) <;>
        (try exact Or.inr (fun hc => by rw [hsp.1] at hc; exact DrumType.noConfusion hc)) <;>
        (have htmp := addSwingRidePattern_mem _ _ _ _ _ _ _ h' hm'; clear hm'
         rcases htmp with hm' | hsp) <;>
        first
          | exact Or.inl hm'
          | exact Or.inr (fun hc => by rw [hsp.1] at hc; exact DrumType.noConfusion hc)
    · right
      intro hc
      have hbar3 : bar = 3 := by
        have hmod := of_decide_eq_true hcond.1
        omega
      rw [hsp.2 hc, hbar3, gbb44]
      norm_num
  next hcond =>
    (have htmp := addJazzSnareComping_mem _ _ _ _ _ _ _ h' hm'; clear hm'
     rcases htmp with hm' | hsp) <;>
      (try exact Or.inr (fun hc => by rw [hsp.1] at hc; exact DrumType.noConfusion hc)) <;>
      (have htmp := addFeatheredKick_mem _ _ _ _ _ _ _ _ h' hm'; clear hm'
       rcases htmp with hm' | hsp) <;>
      (try exact Or.inr (fun hc => by rw [hsp.1] at hc; exact DrumType.noConfusion hc)) <;>
      (have htmp := addJazzHihatPattern_mem _ _ _ _ h' hm'; clear hm'
       rcases htmp with hm' | hsp) <;>
      (try exact Or.inr (fun hc => by rw [hsp.1] at hc; exact DrumType.noConfusion hc)) <;>
      (have htmp := addSwingRidePattern_mem _ _ _ _ _ _ _ h' hm'; clear hm'
       rcases htmp with hm' | hsp) <;>
      first
        | exact Or.inl hm'
        | exact Or.inr (fun hc => by rw [hsp.1] at hc; exact DrumType.noConfusion hc)

theorem swingPattern_countP_crash (l : List DrumHit) (a : ℚ) :
    (swingPattern l a).countP (fun h => decide (h.drum = DrumType.crash)) =
      l.countP (fun h => decide (h.drum = DrumType.crash)) := by
  unfold swingPattern
  rw [List.countP_map]
  induction l with
  | nil => rfl
  | cons x l ih => simp [List.countP_cons, ih, Function.comp, swingHit_drum]

/-- C10: generated patterns are not confined to `[0, lengthInBeats)`: for the
jazz style with complexity `0.6 > 0.5` and `bars = 4`, the phrase-end fill
places a crash at the next bar boundary, so for the all-halves outcome of the
random source the returned pattern contains a hit with
`time ≥ lengthInBeats`. -/
theorem claim_C10 :
    ∃ h ∈ (generatePattern ⟨"jazz", "4/4", 120, 4, 0.6, 0⟩ constHalf).hits,
      (generatePattern ⟨"jazz", "4/4", 120, 4, 0.6, 0⟩ constHalf).lengthInBeats ≤ h.time := by
  have hbase : generateBasePattern ⟨"jazz", "4/4", 120, 4, 0.6, 0⟩ constHalf 0 =
      generateJazzPattern 4 "4/4" 0.6 0 constHalf 0 := by
    unfold generateBasePattern
    rw [if_neg (by decide), if_pos rfl]
  have hswing : swingStage ⟨"jazz", "4/4", 120, 4, 0.6, 0⟩
      (generateBasePattern ⟨"jazz", "4/4", 120, 4, 0.6, 0⟩ constHalf 0).1 =
      swingPattern (generateJazzPattern 4 "4/4" 0.6 0 constHalf 0).1 0.6 := by
    unfold swingStage
    rw [if_pos rfl, hbase]
  have hpre : (preDedupHits ⟨"jazz", "4/4", 120, 4, 0.6, 0⟩ constHalf).countP
      (fun h => decide (h.drum = DrumType.crash)) = 1 := by
    unfold preDedupHits
    refine Eq.trans ((sortHits_perm _).countP_eq _) ?_
    rw [humanizePattern_enabled]
    refine Eq.trans (humanizeHits_countP
      (p := fun h => decide (h.drum = DrumType.crash)) _ ?_ _) ?_
    · intro h _ i j
      simp only [humanizeHit_drum]
    · rw [hswing, swingPattern_countP_crash, jazz_c10_crash_count]
  have hpretime : ∀ h ∈ preDedupHits ⟨"jazz", "4/4", 120, 4, 0.6, 0⟩ constHalf,
      h.drum = .crash → h.time = 16 := by
    intro h hm hc
    obtain ⟨h₀, hm0, i, j, rfl⟩ := mem_preDedupHits hm
    rw [hswing] at hm0
    obtain ⟨h₁, hm1, rfl⟩ := List.mem_map.mp hm0
    rw [humanizeHit_drum, swingHit_drum] at hc
    have ht1 : h₁.time = 16 := jazz_c10_crash_time h₁ hm1 hc
    have hcond : ¬(|jsMod1 h₁.time - 0.5| < 0.1) := by
      rw [ht1]
      have h1 : jsMod1 (16 : ℚ) = 0 := by norm_num [jsMod1, jsTrunc]
      rw [h1, abs_of_nonpos (by norm_num)]
      norm_num
    have hsw : swingHit 0.6 h₁ = h₁ := by
      simp only [swingHit]
      rw [if_neg hcond]
    rw [humanizeHit_time, hsw, ht1]
    show max 0 (16 + (constHalf i - 0.5) * 2 * (0.03 * 0.4)) = 16
    norm_num [constHalf]
  have hout : ((generatePattern ⟨"jazz", "4/4", 120, 4, 0.6, 0⟩ constHalf).hits).countP
      (fun h => decide (h.drum = DrumType.crash)) = 1 := by
    rw [generatePattern_hits]
    refine dedup_countP_key_closed hpre ?_
    intro h _ h' _ hph hk
    have hdr : h'.drum = h.drum := congrArg Prod.fst hk
    rw [decide_eq_true_iff] at hph ⊢
    rw [hdr]
    exact hph
  have hex := List.countP_pos_iff.mp (show 0 < ((generatePattern
      ⟨"jazz", "4/4", 120, 4, 0.6, 0⟩ constHalf).hits).countP
      (fun h => decide (h.drum = DrumType.crash)) by omega)
  obtain ⟨h, hm, hph⟩ := hex
  refine ⟨h, hm, ?_⟩
  have hc : h.drum = DrumType.crash := of_decide_eq_true hph
  have hmem : h ∈ preDedupHits ⟨"jazz", "4/4", 120, 4, 0.6, 0⟩ constHalf := by
    rw [generatePattern_hits] at hm
    exact mem_of_mem_dedup hm
  rw [hpretime h hmem hc]
  show ((4 : ℕ) : ℚ) * getBeatsPerBar "4/4" ≤ 16
  rw [gbb44]
  norm_num

/-! ## Concrete evaluation of the rock template at complexity 0, dynamics 0 -/

theorem rock_c8_kick (hits : List DrumHit) :
    addKickPattern hits 0 4 0 0.5 =
      hits ++ [{ drum := .kick, time := 0, velocity := 0.5, duration := 0.25 },
        { drum := .kick, time := 2, velocity := 0.475, duration := 0.25 }] := by
  simp only [addKickPattern]
  rw [if_pos (by norm_num : (4:ℚ) ≥ 4), if_neg (by norm_num : ¬((0:ℚ) > 0.5)),
    if_neg (by norm_num : ¬((0:ℚ) > 0.7))]
  simp only [List.append_assoc, List.singleton_append, List.cons_append, List.nil_append]
  norm_num

theorem rock_c8_snare (hits : List DrumHit) :
    addSnarePattern hits 0 4 0 0.5 false =
      hits ++ [{ drum := .snare, time := 1, velocity := 0.5, duration := 0.25 },
        { drum := .snare, time := 3, velocity := 0.5, duration := 0.25 }] := by
  simp only [addSnarePattern]
  rw [if_pos (by norm_num : (4:ℚ) ≥ 4)]
  simp only [Bool.not_false, if_true]
  rw [if_neg (by norm_num : ¬((0:ℚ) > 0.6))]
  simp only [List.append_assoc, List.singleton_append, List.cons_append, List.nil_append]
  norm_num

theorem rock_c8_hihat (hits : List DrumHit) (rng : ℕ → ℚ) (k : ℕ) :
    addHihatPattern hits 0 4 0 0 0.5 rng k =
      (hits ++ [{ drum := .hihatClosed, time := 0, velocity := 0.5, duration := 0.125 },
        { drum := .hihatClosed, time := 1, velocity := 0.5, duration := 0.125 },
        { drum := .hihatClosed, time := 2, velocity := 0.5, duration := 0.125 },
        { drum := .hihatClosed, time := 3, velocity := 0.5, duration := 0.125 }], k) := by
  simp only [addHihatPattern]
  rw [if_pos (by norm_num : (0:ℚ) < 0.3)]
  have hq : qIter ((4:ℚ) / 1) = 4 := by
    have h1 : ((4:ℚ) / 1) = 4 := by norm_num
    have h2 : ⌈(4:ℚ)⌉ = 4 := by norm_num
    rw [qIter, h1, h2]
    rfl
  rw [hq, show List.range 4 = [0, 1, 2, 3] from rfl]
  simp only [hitsFold, List.foldl_cons, List.foldl_nil]
  have hmod : ∀ i : ℕ, jsMod1 ((0:ℚ) + (i:ℚ) * 1) = 0 := by
    intro i
    simp [jsMod1, jsTrunc, Int.floor_natCast]
  norm_num [hmod, List.append_assoc, jsMod1, jsTrunc]

theorem rock_c8_base (rng : ℕ → ℚ) (k : ℕ) :
    generateRockPattern 1 "4/4" 0 0 rng k =
      ([{ drum := .kick, time := 0, velocity := 0.5, duration := 0.25 },
        { drum := .kick, time := 2, velocity := 0.475, duration := 0.25 },
        { drum := .snare, time := 1, velocity := 0.5, duration := 0.25 },
        { drum := .snare, time := 3, velocity := 0.5, duration := 0.25 },
        { drum := .hihatClosed, time := 0, velocity := 0.5, duration := 0.125 },
        { drum := .hihatClosed, time := 1, velocity := 0.5, duration := 0.125 },
        { drum := .hihatClosed, time := 2, velocity := 0.5, duration := 0.125 },
        { drum := .hihatClosed, time := 3, velocity := 0.5, duration := 0.125 },
        { drum := .crash, time := 0, velocity := 0.45, duration := 0.5 }], k) := by
  have hd1 : decide ((0:ℚ) > 0.6) = false := decide_eq_false (by norm_num)
  simp only [generateRockPattern, gbb44, hitsFold, List.foldl_cons,
    List.foldl_nil, Nat.cast_zero, zero_mul, zero_add, add_zero, hd1, Bool.false_and,
    Bool.false_eq_true, if_false]
  rw [show List.range 1 = [0] from rfl]
  simp only [List.foldl_cons, List.foldl_nil, Nat.cast_zero, zero_mul]
  rw [rock_c8_kick, rock_c8_snare, rock_c8_hihat]
  simp only [true_or, if_true]
  rw [if_neg (fun hcon => absurd hcon.2 (by norm_num : ¬((0:ℚ) > 0.4)))]
  simp only [List.append_assoc, List.singleton_append, List.cons_append, List.nil_append]
  norm_num

theorem max0_close {t₀ δ m : ℚ} (hδ : |δ| ≤ m) (ht : 0 ≤ t₀) :
    |max 0 (t₀ + δ) - t₀| ≤ m := by
  rcases abs_le.mp hδ with ⟨h1, h2⟩
  rcases le_or_lt (t₀ + δ) 0 with hc | hc
  · rw [max_eq_left hc, zero_sub, abs_neg, abs_of_nonneg ht]
    linarith
  · rw [max_eq_right hc.le, show t₀ + δ - t₀ = δ from by ring]
    exact hδ

theorem clamp_close {v₀ ε e : ℚ} (hε : |ε| ≤ e) (h1 : 0.1 ≤ v₀ - e) (h2 : v₀ + e ≤ 1) :
    |max 0.1 (min 1 (v₀ + ε)) - v₀| ≤ e := by
  rcases abs_le.mp hε with ⟨he1, he2⟩
  rw [clamp_id (by linarith) (by linarith), show v₀ + ε - v₀ = ε from by ring]
  exact hε

theorem hitKey_time_close {h h' : DrumHit} (hk : hitKey h' = hitKey h) :
    |h'.time - h.time| < 0.001 := by
  have h2 : jsRound (h'.time * 1000) = jsRound (h.time * 1000) := congrArg Prod.snd hk
  unfold jsRound at h2
  have a1 := Int.floor_le (h'.time * 1000 + 0.5)
  have a2 := Int.lt_floor_add_one (h'.time * 1000 + 0.5)
  have b1 := Int.floor_le (h.time * 1000 + 0.5)
  have b2 := Int.lt_floor_add_one (h.time * 1000 + 0.5)
  rw [h2] at a1 a2
  rw [abs_lt]
  constructor <;> [nlinarith; nlinarith]

theorem hitKey_drum {h h' : DrumHit} (hk : hitKey h' = hitKey h) : h'.drum = h.drum :=
  congrArg Prod.fst hk

theorem rng_offset_time {rng : ℕ → ℚ} (hrng : validRng rng) (i : ℕ) :
    |(rng i - 0.5) * 2 * (0.03 * 0.4)| ≤ 0.012 :=
  le_trans (draw_offset_abs (hrng i).1 (hrng i).2 (by norm_num))
    (by norm_num)

theorem rng_offset_vel {rng : ℕ → ℚ} (hrng : validRng rng) (j : ℕ) :
    |(rng j - 0.5) * 2 * (0.15 * 0.3)| ≤ 0.045 :=
  le_trans (draw_offset_abs (hrng j).1 (hrng j).2 (by norm_num))
    (by norm_num)

theorem hum8_abs0 {t δ : ℚ} (hδ : |δ| ≤ 0.012) (ht : t = 0) : |max 0 (t + δ)| ≤ 0.012 := by
  subst ht
  have h1 := max0_close hδ (le_refl (0 : ℚ))
  rw [sub_zero] at h1
  exact h1

theorem hum8_abs003 {t δ : ℚ} (hδ : |δ| ≤ 0.012) (ht : t = 0) : |max 0 (t + δ)| ≤ 0.03 :=
  le_trans (hum8_abs0 hδ ht) (by norm_num)

theorem hum8_miss0 {t δ : ℚ} (hδ : |δ| ≤ 0.012) (h1 : 1 ≤ t) : ¬|max 0 (t + δ)| ≤ 0.03 := by
  intro habs
  have h2 : t - 0.012 ≤ max 0 (t + δ) := le_max0 hδ
  have h3 := (abs_le.mp habs).2
  linarith

theorem hum8_hitT {t δ T : ℚ} (hδ : |δ| ≤ 0.012) (ht : t = T) (hT : 0 ≤ T) :
    |max 0 (t + δ) - T| ≤ 0.03 := by
  subst ht
  exact le_trans (max0_close hδ hT) (by norm_num)

theorem hum8_missT {t δ T : ℚ} (hδ : |δ| ≤ 0.012) (ht : 0 ≤ t) (hfar : 1 ≤ |t - T|) :
    ¬|max 0 (t + δ) - T| ≤ 0.03 := by
  intro habs
  have h1 := max0_close hδ ht
  rcases abs_le.mp h1 with ⟨h1a, h1b⟩
  rcases abs_le.mp habs with ⟨h2a, h2b⟩
  rcases le_abs.mp hfar with h3 | h3 <;> linarith

theorem hum8_velabs {v ε c : ℚ} (hε : |ε| ≤ 0.045) (hv : v = c) (h1 : 0.145 ≤ c)
    (h2 : c ≤ 0.955) : |max 0.1 (min 1 (v + ε)) - c| ≤ 0.045 := by
  subst hv
  exact clamp_close hε (by linarith) (by linarith)

theorem rock_c8_basePattern (bpm : ℚ) (rng : ℕ → ℚ) :
    generateBasePattern ⟨"rock", "4/4", bpm, 1, 0, 0⟩ rng 0 = (rockC8Hits, 0) := by
  unfold generateBasePattern
  rw [if_pos rfl]
  exact rock_c8_base rng 0

theorem rock_c8_pd (bpm : ℚ) (rng : ℕ → ℚ) :
    preDedupHits ⟨"rock", "4/4", bpm, 1, 0, 0⟩ rng =
      sortHits (humanizeHits rockC8Hits ⟨0.4, 0.3, true⟩ rng 0).1 := by
  unfold preDedupHits
  rw [rock_c8_basePattern bpm rng]
  have hsw : swingStage ⟨"rock", "4/4", bpm, 1, 0, 0⟩ rockC8Hits = rockC8Hits := by
    unfold swingStage
    rw [if_neg (show ¬("rock" : String) = "jazz" by decide),
      if_neg (show ¬("rock" : String) = "lofi" by decide)]
  show sortHits (humanizePattern (swingStage ⟨"rock", "4/4", bpm, 1, 0, 0⟩ rockC8Hits)
    ⟨0.4, 0.3, true⟩ rng 0).1 = _
  rw [hsw, humanizePattern_enabled]

theorem rock_c8_struct (bpm : ℚ) (rng : ℕ → ℚ) (hrng : validRng rng) :
    ∀ h ∈ preDedupHits ⟨"rock", "4/4", bpm, 1, 0, 0⟩ rng,
      (h.drum = DrumType.kick →
        (|h.time| ≤ 0.012 ∧ |h.velocity - 0.5| ≤ 0.045) ∨
        (|h.time - 2| ≤ 0.012 ∧ |h.velocity - 0.475| ≤ 0.045)) ∧
      (h.drum = DrumType.snare →
        (|h.time - 1| ≤ 0.012 ∨ |h.time - 3| ≤ 0.012) ∧ |h.velocity - 0.5| ≤ 0.045) ∧
      (h.drum = DrumType.crash → |h.time| ≤ 0.012 ∧ |h.velocity - 0.45| ≤ 0.045) := by
  intro h hm
  rw [rock_c8_pd bpm rng] at hm
  have hm2 := (sortHits_perm _).mem_iff.mp hm
  obtain ⟨h₀, hm0, i, j, rfl⟩ := humanizeHits_mem _ _ h hm2
  have hδ := rng_offset_time hrng i
  have hε := rng_offset_vel hrng j
  simp only [rockC8Hits, List.mem_cons, List.not_mem_nil, or_false] at hm0
  rcases hm0 with rfl | rfl | rfl | rfl | rfl | rfl | rfl | rfl | rfl
  · refine ⟨fun hd => Or.inl ⟨hum8_abs0 hδ rfl, hum8_velabs hε rfl (by norm_num)
      (by norm_num)⟩, fun hd => ?_, fun hd => ?_⟩ <;>
      (rw [humanizeHit_drum] at hd; exact DrumType.noConfusion hd)
  · refine ⟨fun hd => Or.inr ⟨le_trans (max0_close hδ (by norm_num)) (by norm_num),
      hum8_velabs hε rfl (by norm_num) (by norm_num)⟩, fun hd => ?_, fun hd => ?_⟩ <;>
      (rw [humanizeHit_drum] at hd; exact DrumType.noConfusion hd)
  · refine ⟨fun hd => ?_, fun hd => ⟨Or.inl (le_trans (max0_close hδ (by norm_num))
      (by norm_num)), hum8_velabs hε rfl (by norm_num) (by norm_num)⟩, fun hd => ?_⟩ <;>
      (rw [humanizeHit_drum] at hd; exact DrumType.noConfusion hd)
  · refine ⟨fun hd => ?_, fun hd => ⟨Or.inr (le_trans (max0_close hδ (by norm_num))
      (by norm_num)), hum8_velabs hε rfl (by norm_num) (by norm_num)⟩, fun hd => ?_⟩ <;>
      (rw [humanizeHit_drum] at hd; exact DrumType.noConfusion hd)
  · refine ⟨fun hd => ?_, fun hd => ?_, fun hd => ?_⟩ <;>
      (rw [humanizeHit_drum] at hd; exact DrumType.noConfusion hd)
  · refine ⟨fun hd => ?_, fun hd => ?_, fun hd => ?_⟩ <;>
      (rw [humanizeHit_drum] at hd; exact DrumType.noConfusion hd)
  · refine ⟨fun hd => ?_, fun hd => ?_, fun hd => ?_⟩ <;>
      (rw [humanizeHit_drum] at hd; exact DrumType.noConfusion hd)
  · refine ⟨fun hd => ?_, fun hd => ?_, fun hd => ?_⟩ <;>
      (rw [humanizeHit_drum] at hd; exact DrumType.noConfusion hd)
  · refine ⟨fun hd => ?_, fun hd => ?_, fun hd => ⟨hum8_abs0 hδ rfl,
      hum8_velabs hε rfl (by norm_num) (by norm_num)⟩⟩ <;>
      (rw [humanizeHit_drum] at hd; exact DrumType.noConfusion hd)

theorem rock_c8_count_kick0 (bpm : ℚ) (rng : ℕ → ℚ) (hrng : validRng rng) :
    (preDedupHits ⟨"rock", "4/4", bpm, 1, 0, 0⟩ rng).countP
      (fun h => decide (h.drum = DrumType.kick ∧ |h.time| ≤ 0.03)) = 1 := by
  rw [rock_c8_pd bpm rng]
  refine Eq.trans ((sortHits_perm _).countP_eq _) ?_
  refine Eq.trans (humanizeHits_countP
    (p := fun h => decide (h.drum = DrumType.kick ∧ h.time = 0)) _ ?_ _) ?_
  · intro h hm i j
    have hδ := rng_offset_time hrng i
    simp only [rockC8Hits, List.mem_cons, List.not_mem_nil, or_false] at hm
    simp only [decide_eq_decide]
    rcases hm with rfl | rfl | rfl | rfl | rfl | rfl | rfl | rfl | rfl
    · exact iff_of_true ⟨rfl, hum8_abs003 hδ rfl⟩ ⟨rfl, rfl⟩
    · exact iff_of_false (fun hc => hum8_miss0 hδ (by norm_num) hc.2)
        (fun hc => absurd hc.2 (by norm_num))
    · exact iff_of_false (fun hc => DrumType.noConfusion hc.1)
        (fun hc => DrumType.noConfusion hc.1)
    · exact iff_of_false (fun hc => DrumType.noConfusion hc.1)
        (fun hc => DrumType.noConfusion hc.1)
    · exact iff_of_false (fun hc => DrumType.noConfusion hc.1)
        (fun hc => DrumType.noConfusion hc.1)
    · exact iff_of_false (fun hc => DrumType.noConfusion hc.1)
        (fun hc => DrumType.noConfusion hc.1)
    · exact iff_of_false (fun hc => DrumType.noConfusion hc.1)
        (fun hc => DrumType.noConfusion hc.1)
    · exact iff_of_false (fun hc => DrumType.noConfusion hc.1)
        (fun hc => DrumType.noConfusion hc.1)
    · exact iff_of_false (fun hc => DrumType.noConfusion hc.1)
        (fun hc => DrumType.noConfusion hc.1)
  · simp only [rockC8Hits, List.countP_cons, List.countP_nil]
    norm_num
    decide

theorem rock_c8_count_kick2 (bpm : ℚ) (rng : ℕ → ℚ) (hrng : validRng rng) :
    (preDedupHits ⟨"rock", "4/4", bpm, 1, 0, 0⟩ rng).countP
      (fun h => decide (h.drum = DrumType.kick ∧ |h.time - 2| ≤ 0.03)) = 1 := by
  rw [rock_c8_pd bpm rng]
  refine Eq.trans ((sortHits_perm _).countP_eq _) ?_
  refine Eq.trans (humanizeHits_countP
    (p := fun h => decide (h.drum = DrumType.kick ∧ h.time = 2)) _ ?_ _) ?_
  · intro h hm i j
    have hδ := rng_offset_time hrng i
    simp only [rockC8Hits, List.mem_cons, List.not_mem_nil, or_false] at hm
    simp only [decide_eq_decide]
    rcases hm with rfl | rfl | rfl | rfl | rfl | rfl | rfl | rfl | rfl
    · exact iff_of_false (fun hc => hum8_missT hδ (by norm_num) (by norm_num) hc.2)
        (fun hc => absurd hc.2 (by norm_num))
    · exact iff_of_true ⟨rfl, hum8_hitT hδ rfl (by norm_num)⟩ ⟨rfl, rfl⟩
    · exact iff_of_false (fun hc => DrumType.noConfusion hc.1)
        (fun hc => DrumType.noConfusion hc.1)
    · exact iff_of_false (fun hc => DrumType.noConfusion hc.1)
        (fun hc => DrumType.noConfusion hc.1)
    · exact iff_of_false (fun hc => DrumType.noConfusion hc.1)
        (fun hc => DrumType.noConfusion hc.1)
    · exact iff_of_false (fun hc => DrumType.noConfusion hc.1)
        (fun hc => DrumType.noConfusion hc.1)
    · exact iff_of_false (fun hc => DrumType.noConfusion hc.1)
        (fun hc => DrumType.noConfusion hc.1)
    · exact iff_of_false (fun hc => DrumType.noConfusion hc.1)
        (fun hc => DrumType.noConfusion hc.1)
    · exact iff_of_false (fun hc => DrumType.noConfusion hc.1)
        (fun hc => DrumType.noConfusion hc.1)
  · simp only [rockC8Hits, List.countP_cons, List.countP_nil]
    norm_num
    decide

theorem rock_c8_count_snare1 (bpm : ℚ) (rng : ℕ → ℚ) (hrng : validRng rng) :
    (preDedupHits ⟨"rock", "4/4", bpm, 1, 0, 0⟩ rng).countP
      (fun h => decide (h.drum = DrumType.snare ∧ |h.time - 1| ≤ 0.03)) = 1 := by
  rw [rock_c8_pd bpm rng]
  refine Eq.trans ((sortHits_perm _).countP_eq _) ?_
  refine Eq.trans (humanizeHits_countP
    (p := fun h => decide (h.drum = DrumType.snare ∧ h.time = 1)) _ ?_ _) ?_
  · intro h hm i j
    have hδ := rng_offset_time hrng i
    simp only [rockC8Hits, List.mem_cons, List.not_mem_nil, or_false] at hm
    simp only [decide_eq_decide]
    rcases hm with rfl | rfl | rfl | rfl | rfl | rfl | rfl | rfl | rfl
    · exact iff_of_false (fun hc => DrumType.noConfusion hc.1)
        (fun hc => DrumType.noConfusion hc.1)
    · exact iff_of_false (fun hc => DrumType.noConfusion hc.1)
        (fun hc => DrumType.noConfusion hc.1)
    · exact iff_of_true ⟨rfl, hum8_hitT hδ rfl (by norm_num)⟩ ⟨rfl, rfl⟩
    · exact iff_of_false (fun hc => hum8_missT hδ (by norm_num) (by norm_num) hc.2)
        (fun hc => absurd hc.2 (by norm_num))
    · exact iff_of_false (fun hc => DrumType.noConfusion hc.1)
        (fun hc => DrumType.noConfusion hc.1)
    · exact iff_of_false (fun hc => DrumType.noConfusion hc.1)
        (fun hc => DrumType.noConfusion hc.1)
    · exact iff_of_false (fun hc => DrumType.noConfusion hc.1)
        (fun hc => DrumType.noConfusion hc.1)
    · exact iff_of_false (fun hc => DrumType.noConfusion hc.1)
        (fun hc => DrumType.noConfusion hc.1)
    · exact iff_of_false (fun hc => DrumType.noConfusion hc.1)
        (fun hc => DrumType.noConfusion hc.1)
  · simp only [rockC8Hits, List.countP_cons, List.countP_nil]
    norm_num
    decide

theorem rock_c8_count_crash (bpm : ℚ) (rng : ℕ → ℚ) :
    (preDedupHits ⟨"rock", "4/4", bpm, 1, 0, 0⟩ rng).countP
      (fun h => decide (h.drum = DrumType.crash)) = 1 := by
  rw [rock_c8_pd bpm rng]
  refine Eq.trans ((sortHits_perm _).countP_eq _) ?_
  refine Eq.trans (humanizeHits_countP
    (p := fun h => decide (h.drum = DrumType.crash)) _ ?_ _) ?_
  · intro h hm i j
    simp only [humanizeHit_drum]
  · simp only [rockC8Hits, List.countP_cons, List.countP_nil]
    norm_num
    decide

/-- **C8.** For `kitStyle = "rock"`, `timeSignature = "4/4"`, `bars = 1`,
`complexity = 0`, `dynamics = 0` and every outcome of the random source, the
generated pattern contains exactly one kick within 0.03 beats of time 0 and
exactly one within 0.03 beats of time 2, exactly one snare within 0.03 beats of
time 1, and exactly one crash, the crash lying within 0.03 beats of time 0;
and each of those hits stays within 0.15 of its template velocity (0.5 for the
kick at 0 and the snare, 0.475 for the kick at 2, 0.45 for the crash) after
clamping. -/
theorem claim_C8 (bpm : ℚ) (rng : ℕ → ℚ) (hrng : validRng rng) :
    ((generatePattern ⟨"rock", "4/4", bpm, 1, 0, 0⟩ rng).hits.countP
      (fun h => decide (h.drum = DrumType.kick ∧ |h.time| ≤ 0.03)) = 1) ∧
    ((generatePattern ⟨"rock", "4/4", bpm, 1, 0, 0⟩ rng).hits.countP
      (fun h => decide (h.drum = DrumType.kick ∧ |h.time - 2| ≤ 0.03)) = 1) ∧
    ((generatePattern ⟨"rock", "4/4", bpm, 1, 0, 0⟩ rng).hits.countP
      (fun h => decide (h.drum = DrumType.snare ∧ |h.time - 1| ≤ 0.03)) = 1) ∧
    ((generatePattern ⟨"rock", "4/4", bpm, 1, 0, 0⟩ rng).hits.countP
      (fun h => decide (h.drum = DrumType.crash)) = 1) ∧
    (∀ h ∈ (generatePattern ⟨"rock", "4/4", bpm, 1, 0, 0⟩ rng).hits,
      (h.drum = DrumType.kick → |h.time| ≤ 0.03 → |h.velocity - 0.5| ≤ 0.15) ∧
      (h.drum = DrumType.kick → |h.time - 2| ≤ 0.03 → |h.velocity - 0.475| ≤ 0.15) ∧
      (h.drum = DrumType.snare → |h.velocity - 0.5| ≤ 0.15) ∧
      (h.drum = DrumType.crash → |h.time| ≤ 0.03 ∧ |h.velocity - 0.45| ≤ 0.15)) := by
  have hstruct := rock_c8_struct bpm rng hrng
  refine ⟨?_, ?_, ?_, ?_, ?_⟩
  · rw [generatePattern_hits]
    refine dedup_countP_key_closed (rock_c8_count_kick0 bpm rng hrng) ?_
    intro h hml h' hml' hp hk
    rw [decide_eq_true_iff] at hp ⊢
    obtain ⟨hd, htm⟩ := hp
    have hd' : h'.drum = DrumType.kick := (hitKey_drum hk).trans hd
    refine ⟨hd', ?_⟩
    have htc := hitKey_time_close hk
    rcases (hstruct h' hml').1 hd' with ⟨h1, _⟩ | ⟨h1, _⟩
    · exact le_trans h1 (by norm_num)
    · exfalso
      rcases abs_le.mp h1 with ⟨h1a, h1b⟩
      rcases abs_le.mp htm with ⟨h2a, h2b⟩
      rcases abs_lt.mp htc with ⟨h3a, h3b⟩
      linarith
  · rw [generatePattern_hits]
    refine dedup_countP_key_closed (rock_c8_count_kick2 bpm rng hrng) ?_
    intro h hml h' hml' hp hk
    rw [decide_eq_true_iff] at hp ⊢
    obtain ⟨hd, htm⟩ := hp
    have hd' : h'.drum = DrumType.kick := (hitKey_drum hk).trans hd
    refine ⟨hd', ?_⟩
    have htc := hitKey_time_close hk
    rcases (hstruct h' hml').1 hd' with ⟨h1, _⟩ | ⟨h1, _⟩
    · exfalso
      rcases abs_le.mp h1 with ⟨h1a, h1b⟩
      rcases abs_le.mp htm with ⟨h2a, h2b⟩
      rcases abs_lt.mp htc with ⟨h3a, h3b⟩
      linarith
    · exact le_trans h1 (by norm_num)
  · rw [generatePattern_hits]
    refine dedup_countP_key_closed (rock_c8_count_snare1 bpm rng hrng) ?_
    intro h hml h' hml' hp hk
    rw [decide_eq_true_iff] at hp ⊢
    obtain ⟨hd, htm⟩ := hp
    have hd' : h'.drum = DrumType.snare := (hitKey_drum hk).trans hd
    refine ⟨hd', ?_⟩
    have htc := hitKey_time_close hk
    rcases ((hstruct h' hml').2.1 hd').1 with h1 | h1
    · exact le_trans h1 (by norm_num)
    · exfalso
      rcases abs_le.mp h1 with ⟨h1a, h1b⟩
      rcases abs_le.mp htm with ⟨h2a, h2b⟩
      rcases abs_lt.mp htc with ⟨h3a, h3b⟩
      linarith
  · rw [generatePattern_hits]
    refine dedup_countP_key_closed (rock_c8_count_crash bpm rng) ?_
    intro h hml h' hml' hp hk
    rw [decide_eq_true_iff] at hp ⊢
    exact (hitKey_drum hk).trans hp
  · intro h hm
    rw [generatePattern_hits] at hm
    have hml := mem_of_mem_dedup hm
    have hΦ := hstruct h hml
    refine ⟨fun hd htw => ?_, fun hd htw => ?_, fun hd => ?_, fun hd => ?_⟩
    · rcases hΦ.1 hd with ⟨h1, h2⟩ | ⟨h1, h2⟩
      · exact le_trans h2 (by norm_num)
      · exfalso
        rcases abs_le.mp h1 with ⟨h1a, h1b⟩
        rcases abs_le.mp htw with ⟨h2a, h2b⟩
        linarith
    · rcases hΦ.1 hd with ⟨h1, h2⟩ | ⟨h1, h2⟩
      · exfalso
        rcases abs_le.mp h1 with ⟨h1a, h1b⟩
        rcases abs_le.mp htw with ⟨h2a, h2b⟩
        linarith
      · exact le_trans h2 (by norm_num)
    · exact le_trans (hΦ.2.1 hd).2 (by norm_num)
    · exact ⟨le_trans (hΦ.2.2 hd).1 (by norm_num), le_trans (hΦ.2.2 hd).2 (by norm_num)⟩

/-- Witness for C8: the hypotheses hold at the constant-1/2 random source, and
the crash-count conclusion is extracted there. -/
theorem claim_C8_witness :
    validRng constHalf ∧
    ((generatePattern ⟨"rock", "4/4", 120, 1, 0, 0⟩ constHalf).hits.countP
      (fun h => decide (h.drum = DrumType.crash)) = 1) :=
  ⟨validRng_constHalf, (claim_C8 120 constHalf validRng_constHalf).2.2.2.1⟩

theorem qIter4 : qIter (4 : ℚ) = 4 := by
  have h : ⌈(4 : ℚ)⌉ = 4 := by norm_num
  simp [qIter, h]

theorem grid_ne {i j : ℕ} (hne : j ≠ i) :
    0.125 ≤ |(30 + (j : ℚ) * 0.125) - (30 + (i : ℚ) * 0.125)| := by
  rw [show (30 + (j : ℚ) * 0.125) - (30 + (i : ℚ) * 0.125) = ((j : ℚ) - (i : ℚ)) * 0.125 from
    by ring, abs_mul, (by norm_num : |(0.125 : ℚ)| = 0.125)]
  have h1 : (1 : ℚ) ≤ |(j : ℚ) - (i : ℚ)| := by
    rw [show (j : ℚ) - (i : ℚ) = (((j : ℤ) - (i : ℤ) : ℤ) : ℚ) from by push_cast; ring,
      ← Int.cast_abs]
    have hz : (1 : ℤ) ≤ |(j : ℤ) - (i : ℤ)| :=
      Int.one_le_abs (sub_ne_zero.mpr (fun hc => hne (by exact_mod_cast hc)))
    exact_mod_cast hz
  linarith

theorem countP_range_eq (n i : ℕ) (hi : i < n) :
    (List.range n).countP (fun j => decide (j = i)) = 1 := by
  induction n with
  | zero => omega
  | succ m ih =>
    rw [List.range_succ, List.countP_append, List.countP_cons, List.countP_nil]
    rcases Nat.lt_or_ge i m with hlt | hge
    · rw [ih hlt, decide_eq_false (show ¬m = i by omega)]
      simp
    · have him : i = m := by omega
      have h0 : (List.range m).countP (fun j => decide (j = i)) = 0 := by
        rw [List.countP_eq_zero]
        intro j hj
        have := List.mem_range.mp hj
        simp only [decide_eq_true_eq]
        omega
      rw [h0, decide_eq_true (show m = i by omega)]
      simp

theorem addFourOnFloorKick_mem7 (hits : List DrumHit) (b v : ℚ) (br : Bool) :
    ∀ h ∈ addFourOnFloorKick hits b 4 0.7 v br,
      h ∈ hits ∨ (h.drum = DrumType.kick ∧ h.time ≤ b + 3) := by
  intro h hm
  simp only [addFourOnFloorKick, qIter4, if_pos (show (0.7 : ℚ) > 0.6 by norm_num),
    if_neg (show ¬((0.7 : ℚ) > 0.8) by norm_num)] at hm
  split_ifs at hm
  · exact Or.inl hm
  · simp only [List.append_assoc, List.singleton_append, List.cons_append,
      List.nil_append] at hm
    rcases List.mem_append.mp hm with hm1 | hm2
    · exact Or.inl hm1
    · rcases List.mem_append.mp hm2 with hm3 | hm4
      · obtain ⟨beat, hb, rfl⟩ := List.mem_map.mp hm3
        have hb4 := List.mem_range.mp hb
        have hble : (beat : ℚ) ≤ 3 := by exact_mod_cast Nat.lt_succ_iff.mp hb4
        refine Or.inr ⟨rfl, ?_⟩
        show b + (beat : ℚ) ≤ b + 3
        linarith
      · rw [List.mem_singleton.mp hm4]
        refine Or.inr ⟨rfl, ?_⟩
        show b + 0.75 ≤ b + 3
        linarith

theorem addElectronicSnare_mem7 (hits : List DrumHit) (b v : ℚ) (br : Bool) :
    ∀ h ∈ addElectronicSnare hits b 4 0.7 v br,
      h ∈ hits ∨ (h.drum = DrumType.snare ∧ (h.time = b + 1 ∨ h.time = b + 3)) := by
  intro h hm
  simp only [addElectronicSnare, if_pos (show (4 : ℚ) ≥ 4 by norm_num),
    if_neg (show ¬((0.7 : ℚ) > 0.7) by norm_num)] at hm
  split_ifs at hm
  · exact Or.inl hm
  · rcases List.mem_append.mp hm with hm1 | hm2
    · exact Or.inl hm1
    · fin_cases hm2
      · exact Or.inr ⟨rfl, Or.inl rfl⟩
      · exact Or.inr ⟨rfl, Or.inr rfl⟩

theorem addFourOnFloorKick_countP (p : DrumHit → Bool)
    (hp : ∀ x : DrumHit, x.drum = DrumType.kick → p x = false)
    (hits : List DrumHit) (b bpb c v : ℚ) (br : Bool) :
    (addFourOnFloorKick hits b bpb c v br).countP p = hits.countP p := by
  simp only [addFourOnFloorKick]
  split_ifs <;>
    simp [List.countP_append, List.countP_map, List.countP_cons, Function.comp, hp]

theorem addElectronicSnare_countP (p : DrumHit → Bool) (hits : List DrumHit)
    (b bpb c v : ℚ) (br : Bool)
    (hp1 : p { drum := DrumType.snare, time := b + 1, velocity := v, duration := 0.2 } = false)
    (hp2 : p { drum := DrumType.snare, time := b + 3, velocity := v, duration := 0.2 } = false)
    (hp3 : p ⟨DrumType.snare, b + 1.5, v * 0.5, 0.1⟩ = false) :
    (addElectronicSnare hits b bpb c v br).countP p = hits.countP p := by
  simp only [addElectronicSnare]
  split_ifs <;>
    simp [List.countP_append, List.countP_cons, hp1, hp2, hp3]

theorem addElectronicHihats_countP (p : DrumHit → Bool)
    (hpo : ∀ x : DrumHit, x.drum = DrumType.hihatOpen → p x = false)
    (hpc : ∀ x : DrumHit, x.drum = DrumType.hihatClosed → p x = false)
    (hits : List DrumHit) (b bpb c d v : ℚ) (rng : ℕ → ℚ) (k : ℕ) :
    ((addElectronicHihats hits b bpb c d v rng k).1).countP p = hits.countP p := by
  simp only [addElectronicHihats]
  refine Eq.trans (hitsFold_countP (fun _ => 0) (List.range (qIter (bpb / 0.25))) ?_
    (hits, k)) ?_
  · intro i _ st
    dsimp only
    split_ifs <;>
      (try dsimp only) <;>
      simp [List.countP_append, List.countP_cons, hpo, hpc]
  · simp

theorem addElectronicPercussion_countP (p : DrumHit → Bool)
    (hpr : ∀ x : DrumHit, x.drum = DrumType.ride → p x = false)
    (hits : List DrumHit) (b bpb c v : ℚ) (rng : ℕ → ℚ) (k : ℕ) :
    ((addElectronicPercussion hits b bpb c v rng k).1).countP p = hits.countP p := by
  simp only [addElectronicPercussion]
  refine Eq.trans (hitsFold_countP (fun _ => 0) ([0.5, 1.5, 2.5, 3.5] : List ℚ) ?_
    (hits, k)) ?_
  · intro pos _ st
    dsimp only
    split_ifs <;>
      (try dsimp only) <;>
      simp [List.countP_append, List.countP_cons, hpr]
  · simp

theorem addElectronicFill_countP (p : DrumHit → Bool) (hits : List DrumHit) (b bpb v : ℚ) :
    (addElectronicFill hits b bpb v).countP p = hits.countP p
      + ((List.range 16).map (fun (i : ℕ) =>
          ({ drum := DrumType.snare, time := b + bpb - 2 + (i : ℚ) * 0.125,
             velocity := v * (0.3 + ((i : ℚ) / 16) * 0.7), duration := 0.1 } : DrumHit))).countP p
      + (if p { drum := DrumType.crash, time := b + bpb, velocity := v, duration := 0.5 }
          then 1 else 0) := by
  simp only [addElectronicFill]
  simp only [List.countP_append, List.countP_cons, List.countP_nil, List.countP_map,
    Nat.zero_add]

theorem elec_c7_mem (d : ℚ) (rng : ℕ → ℚ) (k : ℕ) :
    ∀ h ∈ (generateElectronicPattern 8 "4/4" 0.7 d rng k).1,
      (h.drum = DrumType.kick → h.time ≤ 27) ∧
      (h.drum = DrumType.snare → h.time ≤ 27 ∨ ∃ i : ℕ, i < 16 ∧
        h.time = 30 + (i : ℚ) * 0.125 ∧
        h.velocity = (0.6 + d * 0.35) * (0.3 + ((i : ℚ) / 16) * 0.7)) ∧
      (h.drum = DrumType.crash → h.time = 32 ∧ h.velocity = 0.6 + d * 0.35) := by
  intro h hm
  simp only [generateElectronicPattern, gbb44] at hm
  have hres := hitsFold_mem (P := fun x =>
    (x.drum = DrumType.kick → x.time ≤ 27) ∧
    (x.drum = DrumType.snare → x.time ≤ 27 ∨ ∃ i : ℕ, i < 16 ∧
      x.time = 30 + (i : ℚ) * 0.125 ∧
      x.velocity = (0.6 + d * 0.35) * (0.3 + ((i : ℚ) / 16) * 0.7)) ∧
    (x.drum = DrumType.crash → x.time = 32 ∧ x.velocity = 0.6 + d * 0.35))
    _ ?_ ([], k) h hm
  · rcases hres with hres | hres
    · simp at hres
    · exact hres
  intro bar hbar st h' hm'
  dsimp only at hm'
  have hb8 := List.mem_range.mp hbar
  split at hm'
  next hcond =>
    have hcondb := hcond
    rw [Bool.and_eq_true] at hcondb
    have hbar7 : bar = 7 := by
      have hmod := of_decide_eq_true hcondb.2
      omega
    rw [hcond, addFourOnFloorKick_breakdown, addElectronicSnare_breakdown,
      if_pos (show (0.7 : ℚ) > 0.5 by norm_num)] at hm'
    rcases addElectronicFill_mem _ _ _ _ h' hm' with hm2 | hsp | hsp
    · rcases addElectronicPercussion_mem _ _ _ _ _ _ _ h' hm2 with hm3 | hsp
      · rcases addElectronicHihats_mem _ _ _ _ _ _ _ _ h' hm3 with hm4 | hsp
        · exact Or.inl hm4
        · refine Or.inr ⟨fun hd => ?_, fun hd => ?_, fun hd => ?_⟩ <;>
            (rcases hsp.1 with hh | hh <;> exact DrumType.noConfusion (hd.symm.trans hh))
      · refine Or.inr ⟨fun hd => ?_, fun hd => ?_, fun hd => ?_⟩ <;>
          exact DrumType.noConfusion (hd.symm.trans hsp.1)
    · refine Or.inr ⟨fun hd => ?_, fun hd => ?_, fun hd => ?_⟩
      · exact DrumType.noConfusion (hd.symm.trans hsp.1)
      · right
        obtain ⟨i, hi, ht, hv⟩ := hsp.2.2
        refine ⟨i, hi, ?_, hv⟩
        rw [ht, hbar7]
        push_cast
        ring
      · exact DrumType.noConfusion (hd.symm.trans hsp.1)
    · refine Or.inr ⟨fun hd => ?_, fun hd => ?_, fun hd => ?_⟩
      · exact DrumType.noConfusion (hd.symm.trans hsp.1)
      · exact DrumType.noConfusion (hd.symm.trans hsp.1)
      · refine ⟨?_, hsp.2.2.2⟩
        rw [hsp.2.2.1, hbar7]
        push_cast
        ring
  next hcond =>
    have hble : bar ≤ 6 := by
      by_contra hgt
      refine hcond ?_
      rw [Bool.and_eq_true]
      exact ⟨decide_eq_true (by norm_num), decide_eq_true (by omega)⟩
    have hble' : (bar : ℚ) ≤ 6 := by exact_mod_cast hble
    rw [if_pos (show (0.7 : ℚ) > 0.5 by norm_num)] at hm'
    rcases addElectronicPercussion_mem _ _ _ _ _ _ _ h' hm' with hm3 | hsp
    · rcases addElectronicHihats_mem _ _ _ _ _ _ _ _ h' hm3 with hm4 | hsp
      · rcases addElectronicSnare_mem7 _ _ _ _ h' hm4 with hm5 | hsp
        · rcases addFourOnFloorKick_mem7 _ _ _ _ h' hm5 with hm6 | hsp
          · exact Or.inl hm6
          · refine Or.inr ⟨fun hd => ?_, fun hd => ?_, fun hd => ?_⟩
            · have := hsp.2
              linarith
            · exact DrumType.noConfusion (hd.symm.trans hsp.1)
            · exact DrumType.noConfusion (hd.symm.trans hsp.1)
        · refine Or.inr ⟨fun hd => ?_, fun hd => ?_, fun hd => ?_⟩
          · exact DrumType.noConfusion (hd.symm.trans hsp.1)
          · left
            rcases hsp.2 with ht | ht <;> rw [ht] <;> linarith
          · exact DrumType.noConfusion (hd.symm.trans hsp.1)
      · refine Or.inr ⟨fun hd => ?_, fun hd => ?_, fun hd => ?_⟩ <;>
          (rcases hsp.1 with hh | hh <;> exact DrumType.noConfusion (hd.symm.trans hh))
    · refine Or.inr ⟨fun hd => ?_, fun hd => ?_, fun hd => ?_⟩ <;>
        exact DrumType.noConfusion (hd.symm.trans hsp.1)

theorem elec_c7_countP (d : ℚ) (rng : ℕ → ℚ) (k : ℕ) (p : DrumHit → Bool) (n : ℕ)
    (hpk : ∀ x : DrumHit, x.drum = DrumType.kick → p x = false)
    (hpo : ∀ x : DrumHit, x.drum = DrumType.hihatOpen → p x = false)
    (hpc : ∀ x : DrumHit, x.drum = DrumType.hihatClosed → p x = false)
    (hpr : ∀ x : DrumHit, x.drum = DrumType.ride → p x = false)
    (hps : ∀ x : DrumHit, x.drum = DrumType.snare → x.time ≤ 27 → p x = false)
    (hfill : ((List.range 16).map (fun (i : ℕ) =>
        ({ drum := DrumType.snare, time := 30 + (i : ℚ) * 0.125,
           velocity := (0.6 + d * 0.35) * (0.3 + ((i : ℚ) / 16) * 0.7),
           duration := 0.1 } : DrumHit))).countP p
      + (if p ⟨DrumType.crash, 32, 0.6 + d * 0.35, 0.5⟩ then 1 else 0) = n) :
    ((generateElectronicPattern 8 "4/4" 0.7 d rng k).1).countP p = n := by
  simp only [generateElectronicPattern, gbb44]
  refine Eq.trans (hitsFold_countP (fun bar => if (bar + 1) % 8 = 0 then n else 0)
    (List.range 8) ?_ ([], k)) ?_
  · intro bar hbar st
    have hb8 := List.mem_range.mp hbar
    dsimp only
    split
    next hcond =>
      have hcondb := hcond
      rw [Bool.and_eq_true] at hcondb
      have hbar7 : bar = 7 := by
        have hmod := of_decide_eq_true hcondb.2
        omega
      rw [hcond, addFourOnFloorKick_breakdown, addElectronicSnare_breakdown,
        if_pos (show (0.7 : ℚ) > 0.5 by norm_num)]
      rw [addElectronicFill_countP p,
        addElectronicPercussion_countP p hpr,
        addElectronicHihats_countP p hpo hpc,
        if_pos (show (bar + 1) % 8 = 0 from of_decide_eq_true hcondb.2)]
      rw [hbar7]
      rw [show ((7 : ℕ) : ℚ) * 4 + 4 - 2 = 30 from by push_cast; ring,
        show ((7 : ℕ) : ℚ) * 4 + 4 = 32 from by push_cast; ring]
      rw [Nat.add_assoc, hfill]
    next hcond =>
      have hble : bar ≤ 6 := by
        by_contra hgt
        refine hcond ?_
        rw [Bool.and_eq_true]
        exact ⟨decide_eq_true (by norm_num), decide_eq_true (by omega)⟩
      have hble' : (bar : ℚ) ≤ 6 := by exact_mod_cast hble
      rw [if_pos (show (0.7 : ℚ) > 0.5 by norm_num)]
      rw [addElectronicPercussion_countP p hpr,
        addElectronicHihats_countP p hpo hpc,
        addElectronicSnare_countP p _ _ _ _ _ _
          (hps _ rfl (by show (bar : ℚ) * 4 + 1 ≤ 27; linarith))
          (hps _ rfl (by show (bar : ℚ) * 4 + 3 ≤ 27; linarith))
          (hps _ rfl (by show (bar : ℚ) * 4 + 1.5 ≤ 27; linarith)),
        addFourOnFloorKick_countP p hpk,
        if_neg (show ¬((bar + 1) % 8 = 0) by omega)]
      omega
  · rw [show List.range 8 = [0, 1, 2, 3, 4, 5, 6, 7] from rfl]
    simp only [List.map_cons, List.map_nil, List.sum_cons, List.sum_nil, List.countP_nil]
    norm_num

theorem elec_c7_pd (bpm d : ℚ) (rng : ℕ → ℚ) :
    preDedupHits ⟨"electronic", "4/4", bpm, 8, 0.7, d⟩ rng =
      sortHits (humanizeHits (generateElectronicPattern 8 "4/4" 0.7 d rng 0).1
        ⟨0.4, 0.3, true⟩ rng (generateElectronicPattern 8 "4/4" 0.7 d rng 0).2).1 := by
  unfold preDedupHits
  have hbase : generateBasePattern ⟨"electronic", "4/4", bpm, 8, 0.7, d⟩ rng 0 =
      generateElectronicPattern 8 "4/4" 0.7 d rng 0 := by
    unfold generateBasePattern
    rw [if_neg (show ¬("electronic" : String) = "rock" by decide),
      if_neg (show ¬("electronic" : String) = "jazz" by decide), if_pos rfl]
  rw [hbase]
  have hsw : ∀ l, swingStage ⟨"electronic", "4/4", bpm, 8, 0.7, d⟩ l = l := by
    intro l
    unfold swingStage
    rw [if_neg (show ¬("electronic" : String) = "jazz" by decide),
      if_neg (show ¬("electronic" : String) = "lofi" by decide)]
  show sortHits (humanizePattern (swingStage ⟨"electronic", "4/4", bpm, 8, 0.7, d⟩
    (generateElectronicPattern 8 "4/4" 0.7 d rng 0).1) ⟨0.4, 0.3, true⟩ rng
    (generateElectronicPattern 8 "4/4" 0.7 d rng 0).2).1 = _
  rw [hsw, humanizePattern_enabled]

theorem elec_c7_struct (bpm d : ℚ) (rng : ℕ → ℚ) (hrng : validRng rng)
    (hd0 : 0 ≤ d) (hd1 : d ≤ 1) :
    ∀ h ∈ preDedupHits ⟨"electronic", "4/4", bpm, 8, 0.7, d⟩ rng,
      (h.drum = DrumType.kick → h.time < 28) ∧
      (h.drum = DrumType.snare → h.time < 28 ∨ ∃ i : ℕ, i < 16 ∧
        |h.time - (30 + (i : ℚ) * 0.125)| ≤ 0.012 ∧
        |h.velocity - (0.6 + d * 0.35) * (0.3 + ((i : ℚ) / 16) * 0.7)| ≤ 0.045) ∧
      (h.drum = DrumType.crash →
        |h.time - 32| ≤ 0.012 ∧ |h.velocity - (0.6 + d * 0.35)| ≤ 0.045) := by
  intro h hm
  rw [elec_c7_pd bpm d rng] at hm
  have hm2 := (sortHits_perm _).mem_iff.mp hm
  obtain ⟨h₀, hm0, a, b, rfl⟩ := humanizeHits_mem _ _ h hm2
  have hΦ := elec_c7_mem d rng 0 h₀ hm0
  have hδ := rng_offset_time hrng a
  have hε := rng_offset_vel hrng b
  rcases abs_le.mp hδ with ⟨hδ1, hδ2⟩
  refine ⟨fun hd => ?_, fun hd => ?_, fun hd => ?_⟩
  · rw [humanizeHit_drum] at hd
    have ht := hΦ.1 hd
    rw [humanizeHit_time]
    refine lt_of_le_of_lt (max_le (by norm_num) ?_) (show (27.012 : ℚ) < 28 by norm_num)
    linarith
  · rw [humanizeHit_drum] at hd
    rcases hΦ.2.1 hd with ht | ⟨i, hi, ht, hv⟩
    · left
      rw [humanizeHit_time]
      refine lt_of_le_of_lt (max_le (by norm_num) ?_) (show (27.012 : ℚ) < 28 by norm_num)
      linarith
    · right
      refine ⟨i, hi, ?_, ?_⟩
      · rw [humanizeHit_time, ht]
        exact max0_close hδ (by positivity)
      · rw [humanizeHit_velocity, hv]
        have hile : (i : ℚ) ≤ 15 := by exact_mod_cast Nat.lt_succ_iff.mp hi
        have hige : (0 : ℚ) ≤ (i : ℚ) := Nat.cast_nonneg i
        have hA1 : (0.6 : ℚ) ≤ 0.6 + d * 0.35 := by linarith
        have hA2 : (0.6 : ℚ) + d * 0.35 ≤ 0.95 := by linarith
        have hB1 : (0.3 : ℚ) ≤ 0.3 + ((i : ℚ) / 16) * 0.7 := by linarith
        have hB2 : (0.3 : ℚ) + ((i : ℚ) / 16) * 0.7 ≤ 0.95625 := by linarith
        refine clamp_close hε ?_ ?_
        · nlinarith [mul_nonneg (sub_nonneg.mpr hA1) (sub_nonneg.mpr hB1)]
        · nlinarith [mul_nonneg (sub_nonneg.mpr hA2) (sub_nonneg.mpr hB2)]
  · rw [humanizeHit_drum] at hd
    obtain ⟨ht, hv⟩ := hΦ.2.2 hd
    constructor
    · rw [humanizeHit_time, ht]
      exact max0_close hδ (by norm_num)
    · rw [humanizeHit_velocity, hv]
      exact clamp_close hε (by linarith) (by linarith)

theorem elec_c7_precount_crash (bpm d : ℚ) (rng : ℕ → ℚ) :
    (preDedupHits ⟨"electronic", "4/4", bpm, 8, 0.7, d⟩ rng).countP
      (fun h => decide (h.drum = DrumType.crash)) = 1 := by
  rw [elec_c7_pd bpm d rng]
  refine Eq.trans ((sortHits_perm _).countP_eq _) ?_
  refine Eq.trans (humanizeHits_countP
    (p := fun h => decide (h.drum = DrumType.crash)) _ ?_ _) ?_
  · intro h _ i j
    simp only [humanizeHit_drum]
  · refine elec_c7_countP d rng 0 _ 1 ?_ ?_ ?_ ?_ ?_ ?_
    · intro x hx; simp [hx]
    · intro x hx; simp [hx]
    · intro x hx; simp [hx]
    · intro x hx; simp [hx]
    · intro x hx _; simp [hx]
    · simp [List.countP_map, Function.comp]

theorem elec_c7_precount_roll (bpm d : ℚ) (rng : ℕ → ℚ) (hrng : validRng rng)
    (i : ℕ) (hi : i < 16) :
    (preDedupHits ⟨"electronic", "4/4", bpm, 8, 0.7, d⟩ rng).countP
      (fun h => decide (h.drum = DrumType.snare ∧
        |h.time - (30 + (i : ℚ) * 0.125)| ≤ 0.03)) = 1 := by
  rw [elec_c7_pd bpm d rng]
  refine Eq.trans ((sortHits_perm _).countP_eq _) ?_
  refine Eq.trans (humanizeHits_countP
    (p := fun h => decide (h.drum = DrumType.snare ∧
      h.time = 30 + (i : ℚ) * 0.125)) _ ?_ _) ?_
  · intro h hm a b
    have hΦ := elec_c7_mem d rng 0 h hm
    have hδ := rng_offset_time hrng a
    simp only [decide_eq_decide]
    constructor
    · rintro ⟨hdr, hwin⟩
      rw [humanizeHit_drum] at hdr
      refine ⟨hdr, ?_⟩
      rcases hΦ.2.1 hdr with ht | ⟨j, hj, ht, hv⟩
      · exfalso
        rw [humanizeHit_time] at hwin
        rcases abs_le.mp hwin with ⟨hw1, hw2⟩
        rcases abs_le.mp hδ with ⟨hd1, hd2⟩
        have hle : max 0 (h.time + (rng a - 0.5) * 2 * (0.03 * 0.4)) ≤ 27.012 :=
          max_le (by norm_num) (by linarith)
        have hTge : (0 : ℚ) ≤ (i : ℚ) * 0.125 := by positivity
        linarith
      · have hji : j = i := by
          by_contra hne
          rw [humanizeHit_time, ht] at hwin
          have h1 := max0_close hδ (show (0 : ℚ) ≤ 30 + (j : ℚ) * 0.125 by positivity)
          have h1' : |(30 + (j : ℚ) * 0.125) -
              max 0 (30 + (j : ℚ) * 0.125 + (rng a - 0.5) * 2 * (0.03 * 0.4))| ≤ 0.012 := by
            rw [abs_sub_comm]
            exact h1
          have h2 := grid_ne hne
          have h3 := abs_sub_le (30 + (j : ℚ) * 0.125)
            (max 0 (30 + (j : ℚ) * 0.125 + (rng a - 0.5) * 2 * (0.03 * 0.4)))
            (30 + (i : ℚ) * 0.125)
          linarith
        subst hji
        exact ht
    · rintro ⟨hdr, ht⟩
      refine ⟨?_, ?_⟩
      · rw [humanizeHit_drum]
        exact hdr
      · rw [humanizeHit_time, ht]
        exact hum8_hitT hδ rfl (by positivity)
  · refine elec_c7_countP d rng 0 _ 1 ?_ ?_ ?_ ?_ ?_ ?_
    · intro x hx; simp [hx]
    · intro x hx; simp [hx]
    · intro x hx; simp [hx]
    · intro x hx; simp [hx]
    · intro x hx htle
      apply decide_eq_false
      rintro ⟨-, hteq⟩
      rw [hteq] at htle
      have hTge : (0 : ℚ) ≤ (i : ℚ) * 0.125 := by positivity
      linarith
    · rw [List.countP_map]
      have hmap : List.countP ((fun h : DrumHit => decide (h.drum = DrumType.snare ∧
          h.time = 30 + (i : ℚ) * 0.125)) ∘ fun j : ℕ =>
          ({ drum := DrumType.snare, time := 30 + (j : ℚ) * 0.125,
             velocity := (0.6 + d * 0.35) * (0.3 + ((j : ℚ) / 16) * 0.7),
             duration := 0.1 } : DrumHit)) (List.range 16) =
          List.countP (fun j => decide (j = i)) (List.range 16) := by
        refine List.countP_congr ?_
        intro j hj
        simp only [Function.comp_apply, decide_eq_true_eq]
        constructor
        · rintro ⟨-, he⟩
          have h1 : (j : ℚ) * 0.125 = (i : ℚ) * 0.125 := by linarith
          have h2 : (j : ℚ) = (i : ℚ) := by linarith
          exact_mod_cast h2
        · rintro rfl
          exact ⟨trivial, rfl⟩
      rw [hmap, countP_range_eq 16 i hi]
      simp

/-- **C7.** For `kitStyle = "electronic"`, `timeSignature = "4/4"`, `bars = 8`,
`complexity = 0.7` (any dynamics in `[0, 1]`) and every outcome of the random
source, bar index 7 contains no kick and no regular snare: every kick lies
before beat 28, and every snare either lies before beat 28 or belongs to the
16-step snare roll at beats `30 + i/8` (`i < 16`) whose velocity ramps
linearly as `baseVelocity * (0.3 + (i/16) * 0.7)`; each of the 16 roll steps
is hit exactly once, and exactly one crash exists, at the next bar boundary
(beat 32) with the base velocity — all up to the humanization windows of
±0.03 beats and ±0.15 velocity. -/
theorem claim_C7 (bpm d : ℚ) (rng : ℕ → ℚ) (hrng : validRng rng)
    (hd0 : 0 ≤ d) (hd1 : d ≤ 1) :
    (∀ h ∈ (generatePattern ⟨"electronic", "4/4", bpm, 8, 0.7, d⟩ rng).hits,
      h.drum = DrumType.kick → h.time < 28) ∧
    (∀ h ∈ (generatePattern ⟨"electronic", "4/4", bpm, 8, 0.7, d⟩ rng).hits,
      h.drum = DrumType.snare → h.time < 28 ∨ ∃ i : ℕ, i < 16 ∧
        |h.time - (30 + (i : ℚ) * 0.125)| ≤ 0.03 ∧
        |h.velocity - (0.6 + d * 0.35) * (0.3 + ((i : ℚ) / 16) * 0.7)| ≤ 0.15) ∧
    (∀ i : ℕ, i < 16 →
      ((generatePattern ⟨"electronic", "4/4", bpm, 8, 0.7, d⟩ rng).hits).countP
        (fun h => decide (h.drum = DrumType.snare ∧
          |h.time - (30 + (i : ℚ) * 0.125)| ≤ 0.03)) = 1) ∧
    (((generatePattern ⟨"electronic", "4/4", bpm, 8, 0.7, d⟩ rng).hits).countP
      (fun h => decide (h.drum = DrumType.crash)) = 1) ∧
    (∀ h ∈ (generatePattern ⟨"electronic", "4/4", bpm, 8, 0.7, d⟩ rng).hits,
      h.drum = DrumType.crash →
        |h.time - 32| ≤ 0.03 ∧ |h.velocity - (0.6 + d * 0.35)| ≤ 0.15) := by
  have hstruct := elec_c7_struct bpm d rng hrng hd0 hd1
  refine ⟨?_, ?_, ?_, ?_, ?_⟩
  · intro h hm hd
    rw [generatePattern_hits] at hm
    exact (hstruct h (mem_of_mem_dedup hm)).1 hd
  · intro h hm hdr
    rw [generatePattern_hits] at hm
    rcases (hstruct h (mem_of_mem_dedup hm)).2.1 hdr with ht | ⟨i, hi, h1, h2⟩
    · exact Or.inl ht
    · exact Or.inr ⟨i, hi, le_trans h1 (by norm_num), le_trans h2 (by norm_num)⟩
  · intro i hi
    rw [generatePattern_hits]
    refine dedup_countP_key_closed (elec_c7_precount_roll bpm d rng hrng i hi) ?_
    intro h hml h' hml' hp hk
    rw [decide_eq_true_iff] at hp ⊢
    obtain ⟨hdd, htm⟩ := hp
    have hd' : h'.drum = DrumType.snare := (hitKey_drum hk).trans hdd
    refine ⟨hd', ?_⟩
    have htc := hitKey_time_close hk
    rcases abs_le.mp htm with ⟨ha1, ha2⟩
    rcases abs_lt.mp htc with ⟨hb1, hb2⟩
    have hTge : (0 : ℚ) ≤ (i : ℚ) * 0.125 := by positivity
    rcases (hstruct h' hml').2.1 hd' with hlt | ⟨j, hj, h1, h2⟩
    · exfalso
      linarith
    · have hji : j = i := by
        by_contra hne
        have hg := grid_ne hne
        rcases abs_le.mp h1 with ⟨hc1, hc2⟩
        rcases le_abs.mp hg with hgg | hgg <;> linarith
      subst hji
      exact le_trans h1 (by norm_num)
  · rw [generatePattern_hits]
    refine dedup_countP_key_closed (elec_c7_precount_crash bpm d rng) ?_
    intro h hml h' hml' hp hk
    rw [decide_eq_true_iff] at hp ⊢
    exact (hitKey_drum hk).trans hp
  · intro h hm hdr
    rw [generatePattern_hits] at hm
    obtain ⟨h1, h2⟩ := (hstruct h (mem_of_mem_dedup hm)).2.2 hdr
    exact ⟨le_trans h1 (by norm_num), le_trans h2 (by norm_num)⟩

/-- Witness for C7: the hypotheses hold at the constant-1/2 random source with
dynamics 0, and the crash-count conclusion is extracted there. -/
theorem claim_C7_witness :
    validRng constHalf ∧ (0 : ℚ) ≤ 0 ∧ (0 : ℚ) ≤ 1 ∧
    ((generatePattern ⟨"electronic", "4/4", 120, 8, 0.7, 0⟩ constHalf).hits.countP
      (fun h => decide (h.drum = DrumType.crash)) = 1) :=
  ⟨validRng_constHalf, le_refl 0, by norm_num,
    (claim_C7 120 0 constHalf validRng_constHalf (le_refl 0) (by norm_num)).2.2.2.1⟩
